import Mathlib

/-!
Verification of the Nutrion invoicing/ledger backend (`src/app.py`).

The embedding models the SQLite store as lists of rows and each Flask
endpoint handler as a pure function on that store.  Conventions:

* SQL `REAL` amounts are modelled as exact rationals (`ℚ`); Python's
  `round(x, 2)` becomes `round2` (round to 2 decimal places, ties to even,
  which is Python's documented rounding mode).
* SQL `TEXT` dates are compared with SQLite's byte-wise ordering, modelled
  by `strLt` on the character lists (all dates in the app are ASCII
  `YYYY-MM-DD` strings, where byte order and codepoint order coincide).
* SQLite's `CAST(invoice_number AS INTEGER)` is modelled by `castInt`
  (optional leading spaces and sign, then the longest digit run, else 0).
* A handler returns the post-transaction store paired with its response;
  an error response is paired with the unchanged store, which models the
  `conn.rollback()` on every failure path.
-/

namespace Nutrion

/-- Byte-wise strict ordering on character lists, as SQLite compares TEXT. -/
def clLt : List Char → List Char → Bool
  | [], [] => false
  | [], _ :: _ => true
  | _ :: _, [] => false
  | a :: as, b :: bs => if a < b then true else if b < a then false else clLt as bs

/-- SQL `<` on TEXT columns. -/
def strLt (a b : String) : Bool := clLt a.data b.data

/-- SQL `<=` on TEXT columns (byte order is total, so `a <= b ↔ ¬ b < a`). -/
def strLe (a b : String) : Bool := !(strLt b a)

/-- Numeric value of a run of decimal digits. -/
def digitsVal (cs : List Char) : Nat :=
  cs.foldl (fun n c => 10 * n + (c.toNat - '0'.toNat)) 0

/-- SQLite `CAST(s AS INTEGER)`: skip leading spaces, optional sign, then the
longest leading digit run; a string with no leading digits casts to 0. -/
def castInt (s : String) : Int :=
  match s.data.dropWhile (fun c => c = ' ') with
  | '-' :: rest => - (digitsVal (rest.takeWhile Char.isDigit) : Int)
  | '+' :: rest => (digitsVal (rest.takeWhile Char.isDigit) : Int)
  | cs => (digitsVal (cs.takeWhile Char.isDigit) : Int)

/-- Python `round(x, 2)`: nearest multiple of 1/100, ties to even. -/
def round2 (x : ℚ) : ℚ :=
  let y := x * 100
  let f : ℤ := ⌊y⌋
  if y - (f : ℚ) < 1/2 then (f : ℚ) / 100
  else if 1/2 < y - (f : ℚ) then ((f : ℚ) + 1) / 100
  else if f % 2 = 0 then (f : ℚ) / 100 else ((f : ℚ) + 1) / 100

/-- Stable insertion: `insertLe le a l` puts `a` before the first element it
compares `le` to, modelling SQL `ORDER BY` output. -/
def insertLe (le : α → α → Bool) (a : α) : List α → List α
  | [] => [a]
  | b :: bs => if le a b then a :: b :: bs else b :: insertLe le a bs

/-- Stable insertion sort by a boolean comparison. -/
def sortBy (le : α → α → Bool) : List α → List α
  | [] => []
  | a :: as => insertLe le a (sortBy le as)

/-! ## Data model: one structure per table row of `init_db` -/

/-- Row of the `parties` table. -/
structure Party where
  name : String
  initial_opening_balance : ℚ
deriving DecidableEq, Repr

/-- Row of the `invoices` table. -/
structure Invoice where
  id : Nat
  invoice_number : String
  party_name : String
  date : String
  total_amount : ℚ
  previous_balance : ℚ
  grand_total : ℚ
deriving DecidableEq, Repr

/-- Row of the `invoice_items` table. -/
structure InvoiceItem where
  id : Nat
  invoice_id : Nat
  product_name : String
  qty : ℚ
  packing : String
  unit_price : ℚ
  amount : ℚ
deriving DecidableEq, Repr

/-- Row of the `payments` table. -/
structure Payment where
  id : Nat
  party_name : String
  amount : ℚ
  date : String
  remarks : Option String
deriving DecidableEq, Repr

/-- Row of the `stock` table (one inventory batch). -/
structure StockBatch where
  id : Nat
  product_name : String
  batch_no : String
  date : String
  quantity : ℚ
deriving DecidableEq, Repr

/-- The whole relational store, plus the AUTOINCREMENT counters. -/
structure DB where
  parties : List Party
  invoices : List Invoice
  invoice_items : List InvoiceItem
  payments : List Payment
  stock : List StockBatch
  nextInvoiceId : Nat
  nextItemId : Nat
  nextPaymentId : Nat
  nextStockId : Nat
deriving DecidableEq, Repr

/-- The freshly initialised store (`init_db` on an empty database). -/
def emptyDB : DB := ⟨[], [], [], [], [], 1, 1, 1, 1⟩

/-- `SELECT ... FROM parties WHERE name = ?` (first match). -/
def lookupParty (db : DB) (name : String) : Option Party :=
  db.parties.find? (fun p => p.name == name)

/-- `SELECT ... FROM invoices WHERE invoice_number = ?` (first match). -/
def findInvoice (db : DB) (n : String) : Option Invoice :=
  db.invoices.find? (fun i => i.invoice_number == n)

/-- The party's `initial_opening_balance`, or 0.0 when the row is absent
(the handlers' `party_row['initial_opening_balance'] if party_row ... else 0.0`). -/
def initialBalance (db : DB) (name : String) : ℚ :=
  match lookupParty db name with
  | some p => p.initial_opening_balance
  | none => 0

/-- `SELECT SUM(total_amount) FROM invoices WHERE party_name = ?`
(`NULL`, i.e. the empty sum, is read back as 0.0). -/
def sumInvoices (db : DB) (name : String) : ℚ :=
  ((db.invoices.filter (fun i => i.party_name == name)).map (·.total_amount)).sum

/-- `SELECT SUM(amount) FROM payments WHERE party_name = ?`. -/
def sumPayments (db : DB) (name : String) : ℚ :=
  ((db.payments.filter (fun p => p.party_name == name)).map (·.amount)).sum

/-- `calculate_current_party_balance` (`app.py` 113-135): initial opening
balance plus all invoice totals minus all payment amounts, rounded to 2
decimal places.  A pure read: it takes the store and returns a number. -/
def calculate_current_party_balance (party_name : String) (db : DB) : ℚ :=
  round2 (initialBalance db party_name + sumInvoices db party_name
          - sumPayments db party_name)

/-! ## Forward recalculation (`update_subsequent_invoice_balances`) -/

/-- The `WHERE` clause selecting invoices strictly after the cutoff:
`date > ? OR (date = ? AND CAST(invoice_number AS INTEGER) > CAST(? AS INTEGER))`. -/
def invAfter (d n : String) (i : Invoice) : Bool :=
  strLt d i.date || (i.date == d && castInt n < castInt i.invoice_number)

/-- The `WHERE` clause selecting invoices strictly before the cutoff. -/
def invBefore (d n : String) (i : Invoice) : Bool :=
  strLt i.date d || (i.date == d && castInt i.invoice_number < castInt n)

/-- `ORDER BY date ASC, CAST(invoice_number AS INTEGER) ASC` as a comparison. -/
def invoiceKeyLe (a b : Invoice) : Bool :=
  strLt a.date b.date
    || (a.date == b.date && castInt a.invoice_number ≤ castInt b.invoice_number)

/-- `UPDATE invoices SET previous_balance = ?, grand_total = ? WHERE id = ?`. -/
def setInvoiceBalance (invs : List Invoice) (iid : Nat) (prev grand : ℚ) :
    List Invoice :=
  invs.map (fun i =>
    if i.id == iid then { i with previous_balance := prev, grand_total := grand }
    else i)

/-- One iteration of the recalculation loop: stamp the fetched invoice with the
running balance and advance the running balance to its new grand total. -/
def recalcStep (acc : List Invoice × ℚ) (inv : Invoice) : List Invoice × ℚ :=
  let newPrev := acc.2
  let newGrand := acc.2 + inv.total_amount
  (setInvoiceBalance acc.1 inv.id newPrev newGrand, newGrand)

/-- The party's invoices strictly after the cutoff, in chronological order,
as fetched at the top of `update_subsequent_invoice_balances`. -/
def subsequentInvoices (party_name starting_date starting_invoice_number : String)
    (db : DB) : List Invoice :=
  sortBy invoiceKeyLe
    (db.invoices.filter (fun i =>
      i.party_name == party_name && invAfter starting_date starting_invoice_number i))

/-- The balance immediately preceding the cutoff as the function computes it:
initial opening balance, plus invoice totals strictly before the cutoff,
minus payment amounts with `date <= starting_date`. -/
def balanceBeforeCutoff (party_name starting_date starting_invoice_number : String)
    (db : DB) : ℚ :=
  let total_invoices_before :=
    ((db.invoices.filter (fun i =>
        i.party_name == party_name
          && invBefore starting_date starting_invoice_number i)).map
      (·.total_amount)).sum
  let total_payments_before :=
    ((db.payments.filter (fun p =>
        p.party_name == party_name && strLe p.date starting_date)).map
      (·.amount)).sum
  initialBalance db party_name + total_invoices_before - total_payments_before

/-- `update_subsequent_invoice_balances` (`app.py` 139-192): re-derive
`previous_balance`/`grand_total` for every invoice of the party strictly after
the `(starting_date, starting_invoice_number)` cutoff. -/
def update_subsequent_invoice_balances
    (party_name starting_date starting_invoice_number : String) (db : DB) : DB :=
  let subsequent := subsequentInvoices party_name starting_date starting_invoice_number db
  let running := balanceBeforeCutoff party_name starting_date starting_invoice_number db
  { db with invoices := (subsequent.foldl recalcStep (db.invoices, running)).1 }

/-! ## Invoice endpoints -/

/-- One entry of a request's `items` list (camel-case JSON payload). -/
structure ItemReq where
  productName : String
  qty : ℚ
  packing : String
  unitPrice : ℚ
  amount : ℚ
deriving DecidableEq, Repr

/-- Payload of `POST /api/invoices`. -/
structure CreateInvoiceReq where
  partyName : String
  date : String
  invoiceNumber : String
  items : List ItemReq
deriving DecidableEq, Repr

/-- Response of `POST /api/invoices`: HTTP 400, the 409 uniqueness conflict,
or 201 with `previousBalanceForNextInvoice` (the new invoice's grand total). -/
inductive CreateResult
  | badRequest
  | conflict
  | created (previousBalanceForNextInvoice : ℚ)
deriving DecidableEq, Repr

/-- `INSERT INTO parties (name, initial_opening_balance) VALUES (?, 0.0)`
when the party row is absent. -/
def ensureParty (name : String) (db : DB) : DB :=
  if (lookupParty db name).isSome then db
  else { db with parties := db.parties ++ [⟨name, 0⟩] }

/-- Insert the request's items for invoice `iid`, consuming fresh row ids. -/
def insertItems (iid : Nat) (items : List ItemReq) (db : DB) : DB :=
  items.foldl
    (fun acc it =>
      { acc with
        invoice_items := acc.invoice_items
          ++ [⟨acc.nextItemId, iid, it.productName, it.qty, it.packing,
               it.unitPrice, it.amount⟩],
        nextItemId := acc.nextItemId + 1 })
    db

/-- `create_invoice_api` (`app.py` 365-441).  Validation rejects empty (falsy)
required fields and an empty item list; the party is auto-created; the total is
re-summed server-side and rounded; `previous_balance` is the party's current
balance before the insert; the `UNIQUE` constraint on `invoice_number` makes a
duplicate number roll the whole transaction back (409). -/
def create_invoice_api (req : CreateInvoiceReq) (db : DB) : DB × CreateResult :=
  if req.partyName = "" ∨ req.date = "" ∨ req.invoiceNumber = "" then (db, .badRequest)
  else if req.items = [] then (db, .badRequest)
  else
    let db1 := ensureParty req.partyName db
    let total_amount := round2 ((req.items.map (·.amount)).sum)
    let previous_balance := calculate_current_party_balance req.partyName db1
    let grand_total := previous_balance + total_amount
    if ∃ i ∈ db.invoices, i.invoice_number = req.invoiceNumber then
      (db, .conflict)
    else
      let inv : Invoice :=
        ⟨db1.nextInvoiceId, req.invoiceNumber, req.partyName, req.date,
         total_amount, previous_balance, grand_total⟩
      let db2 := { db1 with
        invoices := db1.invoices ++ [inv],
        nextInvoiceId := db1.nextInvoiceId + 1 }
      (insertItems inv.id req.items db2, .created grand_total)

/-- Payload of `PUT /api/invoices/{number}`. -/
structure UpdateInvoiceReq where
  partyName : String
  date : String
  items : List ItemReq
deriving DecidableEq, Repr

/-- Response of `PUT /api/invoices/{number}`. -/
inductive UpdateResult
  | badRequest
  | notFound
  | updated (previousBalanceForNextInvoice : ℚ)
deriving DecidableEq, Repr

/-- `update_invoice_api` (`app.py` 445-538).  Keeps the stored
`previous_balance`, re-derives `total_amount` and `grand_total`, replaces the
items, and — only when the total or the party changed — reruns the forward
recalculation (for both parties when the party changed). -/
def update_invoice_api (invoice_number_to_update : String) (req : UpdateInvoiceReq)
    (db : DB) : DB × UpdateResult :=
  if req.partyName = "" ∨ req.date = "" then (db, .badRequest)
  else if req.items = [] then (db, .badRequest)
  else
    match findInvoice db invoice_number_to_update with
    | none => (db, .notFound)
    | some orig =>
      let db1 := if orig.party_name ≠ req.partyName then ensureParty req.partyName db else db
      let new_total_amount := round2 ((req.items.map (·.amount)).sum)
      let new_grand_total := orig.previous_balance + new_total_amount
      let db2 := { db1 with
        invoices := db1.invoices.map (fun (i : Invoice) =>
          if i.id == orig.id then
            { i with party_name := req.partyName, date := req.date,
                     total_amount := new_total_amount, grand_total := new_grand_total }
          else i) }
      let db3 := insertItems orig.id req.items
        { db2 with invoice_items := db2.invoice_items.filter (fun it => it.invoice_id ≠ orig.id) }
      let db4 :=
        if new_total_amount ≠ orig.total_amount ∨ orig.party_name ≠ req.partyName then
          let dbA :=
            if orig.party_name ≠ req.partyName then
              update_subsequent_invoice_balances orig.party_name orig.date
                orig.invoice_number db3
            else db3
          update_subsequent_invoice_balances req.partyName req.date
            invoice_number_to_update dbA
        else db3
      let updated_grand_total :=
        match db4.invoices.find? (fun i => i.id == orig.id) with
        | some i => i.grand_total
        | none => 0
      (db4, .updated updated_grand_total)

/-- Response of `DELETE /api/invoices/{number}` and `DELETE /api/payments/{id}`. -/
inductive DeleteResult
  | notFound
  | deleted (currentPartyBalance : ℚ)
deriving DecidableEq, Repr

/-- `delete_invoice` (`app.py` 898-942): delete the items, delete the invoice
row, then run the forward recalculation for that party from the deleted
invoice's `(date, invoice_number)` cutoff. -/
def delete_invoice (invoice_number_to_delete : String) (db : DB) : DB × DeleteResult :=
  match findInvoice db invoice_number_to_delete with
  | none => (db, .notFound)
  | some inv =>
    let db1 := { db with
      invoice_items := db.invoice_items.filter (fun it => it.invoice_id ≠ inv.id),
      invoices := db.invoices.filter (fun i => i.id ≠ inv.id) }
    let db2 := update_subsequent_invoice_balances inv.party_name inv.date
      inv.invoice_number db1
    (db2, .deleted (calculate_current_party_balance inv.party_name db2))

/-! ## Payment endpoints -/

/-- Payload of `POST /api/payments`. -/
structure PaymentReq where
  partyName : String
  amount : ℚ
  date : String
  remarks : Option String
deriving DecidableEq, Repr

/-- Response of `POST /api/payments`. -/
inductive PayResult
  | badRequest
  | recorded (paymentId : Nat) (currentPartyBalance : ℚ)
deriving DecidableEq, Repr

/-- `record_payment_api` (`app.py` 635-680): validate, auto-create the party,
insert the payment row.  No invoice row is touched. -/
def record_payment_api (req : PaymentReq) (db : DB) : DB × PayResult :=
  if req.partyName = "" ∨ req.date = "" then (db, .badRequest)
  else if req.amount ≤ 0 then (db, .badRequest)
  else
    let db1 := ensureParty req.partyName db
    let pid := db1.nextPaymentId
    let db2 := { db1 with
      payments := db1.payments ++ [⟨pid, req.partyName, req.amount, req.date, req.remarks⟩],
      nextPaymentId := pid + 1 }
    (db2, .recorded pid (calculate_current_party_balance req.partyName db2))

/-- `delete_payment` (`app.py` 718-751): delete the payment row and recompute
the party's current balance.  It does not modify any invoice row. -/
def delete_payment (payment_id : Nat) (db : DB) : DB × DeleteResult :=
  match db.payments.find? (fun p => p.id == payment_id) with
  | none => (db, .notFound)
  | some p =>
    let db1 := { db with payments := db.payments.filter (fun q => q.id ≠ payment_id) }
    (db1, .deleted (calculate_current_party_balance p.party_name db1))

/-! ## Party-balance query -/

/-- Response of `GET /api/party-balance`. -/
inductive BalanceResult
  | badRequest
  | ok (balance initialOpeningBalance : ℚ)
deriving DecidableEq, Repr

/-- `get_party_balance_for_invoice` (`app.py` 326-347): no not-found path; a
missing party row reads as opening balance 0.0. -/
def get_party_balance_for_invoice (partyName : String) (db : DB) : BalanceResult :=
  if partyName = "" then .badRequest
  else .ok (calculate_current_party_balance partyName db) (initialBalance db partyName)

/-! ## Stock endpoints -/

/-- One entry of the `POST /api/stock/deduct` payload. -/
structure DeductReq where
  productName : String
  qty : ℚ
deriving DecidableEq, Repr

/-- The data of one collected failure message
`f"Not enough stock for '{p}'. Available: {a}, Required: {q}"`. -/
structure StockErr where
  product : String
  available : ℚ
  required : ℚ
deriving DecidableEq, Repr

/-- Response of `POST /api/stock/deduct`. -/
inductive DeductResult
  | badRequest
  | insufficient (errs : List StockErr)
  | deducted
deriving DecidableEq, Repr

/-- `SELECT SUM(quantity) FROM stock WHERE product_name = ?` (NULL/0 read as 0). -/
def totalAvailable (p : String) (stock : List StockBatch) : ℚ :=
  ((stock.filter (fun b => b.product_name == p)).map (·.quantity)).sum

/-- `ORDER BY date ASC, id ASC` on stock batches — oldest batch first. -/
def batchKeyLe (a b : StockBatch) : Bool :=
  strLt a.date b.date || (a.date == b.date && a.id ≤ b.id)

/-- The product's batches with positive remaining quantity, oldest first, as
fetched by the FIFO loop. -/
def fifoBatches (p : String) (stock : List StockBatch) : List StockBatch :=
  sortBy batchKeyLe (stock.filter (fun b => b.product_name == p && decide (0 < b.quantity)))

/-- The `(id, new quantity)` updates of the FIFO loop: walk the fetched batches
oldest first, each time removing `min batch.quantity remaining`, stopping once
the remaining quantity to deduct is exhausted. -/
def deductAmounts : ℚ → List StockBatch → List (Nat × ℚ)
  | _, [] => []
  | rem, b :: bs =>
    if rem ≤ 0 then []
    else
      let d := min b.quantity rem
      (b.id, b.quantity - d) :: deductAmounts (rem - d) bs

/-- Apply `UPDATE stock SET quantity = ? WHERE id = ?` for each update. -/
def applyStockUpdates (ups : List (Nat × ℚ)) (stock : List StockBatch) :
    List StockBatch :=
  ups.foldl
    (fun st u => st.map (fun b => if b.id == u.1 then { b with quantity := u.2 } else b))
    stock

/-- FIFO deduction of `qty` of product `p` from the store's batches. -/
def deductOne (p : String) (qty : ℚ) (stock : List StockBatch) : List StockBatch :=
  applyStockUpdates (deductAmounts qty (fifoBatches p stock)) stock

/-- The request loop of `deduct_stock_api`: skip falsy/nonpositive requests; an
insufficient product appends a failure message and skips its mutation; a
sufficient product is deducted FIFO.  Later requests run against the already
mutated store (all inside one transaction). -/
def deductLoop : List DeductReq → List StockBatch → List StockErr →
    List StockBatch × List StockErr
  | [], stock, errs => (stock, errs)
  | r :: rs, stock, errs =>
    if r.productName = "" ∨ r.qty ≤ 0 then deductLoop rs stock errs
    else
      let avail := totalAvailable r.productName stock
      if avail < r.qty then
        deductLoop rs stock (errs ++ [⟨r.productName, avail, r.qty⟩])
      else
        deductLoop rs (deductOne r.productName r.qty stock) errs

/-- `deduct_stock_api` (`app.py` 805-858): all-or-nothing — if any request
failed the availability check, the whole transaction is rolled back and every
collected failure message is reported; otherwise the mutated stock is
committed. -/
def deduct_stock_api (reqs : List DeductReq) (db : DB) : DB × DeductResult :=
  if reqs = [] then (db, .badRequest)
  else
    let res := deductLoop reqs db.stock []
    if res.2 = [] then ({ db with stock := res.1 }, .deducted)
    else (db, .insufficient res.2)

/-! ## Operation sequences over the invoice/payment API -/

/-- A ledger-mutating API call, for stating "after every sequence of invoice
creates, updates and deletes and payment operations". -/
inductive Op
  | createInvoice (req : CreateInvoiceReq)
  | updateInvoice (invoiceNumber : String) (req : UpdateInvoiceReq)
  | deleteInvoice (invoiceNumber : String)
  | recordPayment (req : PaymentReq)
  | deletePayment (paymentId : Nat)
deriving DecidableEq, Repr

/-- The store after one API call (the response is discarded). -/
def applyOp (db : DB) : Op → DB
  | .createInvoice req => (create_invoice_api req db).1
  | .updateInvoice n req => (update_invoice_api n req db).1
  | .deleteInvoice n => (delete_invoice n db).1
  | .recordPayment req => (record_payment_api req db).1
  | .deletePayment pid => (delete_payment pid db).1

/-- The store after a sequence of API calls, starting from `db`. -/
def applyOps (db : DB) (ops : List Op) : DB := ops.foldl applyOp db

/-- The stored `(previous_balance, grand_total)` of the invoice numbered `n`. -/
def invoiceFields (n : String) (db : DB) : Option (ℚ × ℚ) :=
  (findInvoice db n).map (fun i => (i.previous_balance, i.grand_total))

/-! ## Derived definitions: spec-side recalculation data, the claimed
ledger invariant, requested totals, and concrete stores/operations used by
the claim theorems -/

/-- The spec's forward pass as data (§9 of the spec suggests exactly this
shape): for the fetched invoices in chronological order, emit
`(invoiceId, newPreviousBalance, newGrandTotal)` where `newPreviousBalance` is
the running balance and `newGrandTotal = running + total_amount`, advancing the
running balance to the new grand total. -/
def specTriples (running : ℚ) : List Invoice → List (Nat × ℚ × ℚ)
  | [] => []
  | i :: is =>
    (i.id, running, running + i.total_amount) :: specTriples (running + i.total_amount) is

/-- Apply a list of `(id, previous_balance, grand_total)` updates in order. -/
def applyTriples (ts : List (Nat × ℚ × ℚ)) (invs : List Invoice) : List Invoice :=
  ts.foldl (fun acc t => setInvoiceBalance acc t.1 t.2.1 t.2.2) invs

/-- The pointwise effect of `applyTriples` on a single row. -/
def rowRecalc (ts : List (Nat × ℚ × ℚ)) (i : Invoice) : Invoice :=
  ts.foldl
    (fun c t =>
      if c.id == t.1 then { c with previous_balance := t.2.1, grand_total := t.2.2 }
      else c)
    i

/-- A one-line item contributing exactly `a` to the invoice total. -/
def itemAmt (a : ℚ) : ItemReq := ⟨"product", 1, "", a, a⟩

/-- Create invoice #30 for "Acme", dated 2024-01-01, items totaling 100. -/
def opCreate30 : Op := .createInvoice ⟨"Acme", "2024-01-01", "30", [itemAmt 100]⟩

/-- Create invoice #31 for "Acme", dated 2024-01-02, items totaling 50. -/
def opCreate31 : Op := .createInvoice ⟨"Acme", "2024-01-02", "31", [itemAmt 50]⟩

/-- Record a payment of 60 for "Acme" dated 2024-01-03. -/
def opPay60 : Op := .recordPayment ⟨"Acme", 60, "2024-01-03", none⟩

/-- Update invoice #30 so that its items now total 120. -/
def opUpdate30 : Op := .updateInvoice "30" ⟨"Acme", "2024-01-01", [itemAmt 120]⟩

/-- The party's invoices in chronological order
(`ORDER BY date ASC, CAST(invoice_number AS INTEGER) ASC`). -/
def partyInvoicesSorted (party : String) (db : DB) : List Invoice :=
  sortBy invoiceKeyLe (db.invoices.filter (fun i => i.party_name == party))

/-- Some payment of the party is dated between the two invoices (inclusive). -/
def paymentBetween (party : String) (db : DB) (a b : Invoice) : Prop :=
  ∃ q ∈ db.payments, q.party_name = party
    ∧ strLe a.date q.date = true ∧ strLe q.date b.date = true

/-- The claimed ledger invariant: every stored invoice satisfies
`grand_total = previous_balance + total_amount`, and consecutive invoices in
chronological order with no payment dated between them are chained by
`next.previous_balance = current.grand_total`. -/
def ledgerChainOk (party : String) (db : DB) : Prop :=
  (∀ i ∈ db.invoices, i.party_name = party →
      i.grand_total = i.previous_balance + i.total_amount)
  ∧ List.Chain'
      (fun a b => paymentBetween party db a b ∨ b.previous_balance = a.grand_total)
      (partyInvoicesSorted party db)

/-- The store after creating invoices #30 and #31 for "Acme" and then updating
invoice #30's total to 120 (no payments recorded). -/
def dbAfterUpdate : DB :=
  ⟨[⟨"Acme", 0⟩],
   [⟨1, "30", "Acme", "2024-01-01", 120, 0, 120⟩,
    ⟨2, "31", "Acme", "2024-01-02", 50, 0, 50⟩],
   [⟨2, 2, "product", 1, "", 50, 50⟩, ⟨3, 1, "product", 1, "", 120, 120⟩],
   [], [], 3, 4, 1, 1⟩

/-- Record a payment of 60 for "Acme" dated 2024-01-02 (before invoice #31). -/
def opPay60Early : Op := .recordPayment ⟨"Acme", 60, "2024-01-02", none⟩

/-- Create invoice #31 for "Acme" dated 2024-01-03, items totaling 50. -/
def opCreate31Late : Op := .createInvoice ⟨"Acme", "2024-01-03", "31", [itemAmt 50]⟩

/-- A store with a single recorded payment (id 1), for the C4 witness. -/
def dbPayOnly : DB :=
  ⟨[⟨"Acme", 0⟩], [], [], [⟨1, "Acme", 60, "2024-01-02", none⟩], [], 1, 1, 2, 1⟩

/-- A store holding invoice #30 for "Acme", for the C9 and C10 witnesses. -/
def dbInv30 : DB :=
  ⟨[⟨"Acme", 0⟩], [⟨1, "30", "Acme", "2024-01-01", 100, 0, 100⟩],
   [⟨1, 1, "product", 1, "", 100, 100⟩], [], [], 2, 2, 1, 1⟩

/-- The total quantity of a product requested across one `deductStock` call. -/
def reqSum (p : String) (reqs : List DeductReq) : ℚ :=
  ((reqs.filter (fun r => r.productName == p)).map (·.qty)).sum

/-- Two batches of product "P": B1 dated 2024-01-01 with 5 units and B2 dated
2024-01-02 with 5 units (the spec §8 FIFO example). -/
def dbTwoBatches : DB :=
  ⟨[], [], [], [],
   [⟨1, "P", "B1", "2024-01-01", 5⟩, ⟨2, "P", "B2", "2024-01-02", 5⟩],
   1, 1, 1, 3⟩

/-! ## General lemmas: the byte order, sorting, and row updates -/

theorem clLt_irrefl (l : List Char) : clLt l l = false := by
  induction l with
  | nil => rfl
  | cons a as ih => simp [clLt, ih]

theorem clLt_asymm : ∀ {l₁ l₂ : List Char}, clLt l₁ l₂ = true → clLt l₂ l₁ = false
  | [], [], h => by simp [clLt] at h
  | [], _ :: _, _ => rfl
  | _ :: _, [], h => by simp [clLt] at h
  | a :: as, b :: bs, h => by
    by_cases hab : a < b
    · have hba : ¬ b < a := lt_asymm hab
      simp [clLt, hab, hba]
    · by_cases hba : b < a
      · simp [clLt, hab, hba] at h
      · simp only [clLt, if_neg hab, if_neg hba] at h
        simp [clLt, hab, hba, clLt_asymm h]

theorem strLt_irrefl (s : String) : strLt s s = false := clLt_irrefl _

theorem strLt_asymm {s t : String} (h : strLt s t = true) : strLt t s = false :=
  clLt_asymm h

/-- If an invoice is strictly before a cutoff it is not strictly after it. -/
theorem invBefore_not_invAfter {d n : String} {i : Invoice}
    (h : invBefore d n i = true) : invAfter d n i = false := by
  simp only [invBefore, Bool.or_eq_true, Bool.and_eq_true, beq_iff_eq,
    decide_eq_true_eq] at h
  rcases h with h | ⟨hd, hn⟩
  · have h1 : strLt d i.date = false := strLt_asymm h
    have h2 : i.date ≠ d := by
      rintro rfl
      rw [strLt_irrefl] at h
      exact Bool.false_ne_true h
    simp [invAfter, h1, h2]
  · have h1 : strLt d i.date = false := by rw [hd]; exact strLt_irrefl d
    simp [invAfter, h1, hd, not_lt_of_gt hn, le_of_lt hn, strLt_irrefl]

theorem insertLe_perm (le : α → α → Bool) (a : α) :
    ∀ l : List α, (insertLe le a l).Perm (a :: l)
  | [] => List.Perm.refl _
  | b :: bs => by
    by_cases h : le a b = true
    · simp [insertLe, h]
    · simp only [insertLe, if_neg h]
      exact ((insertLe_perm le a bs).cons b).trans (List.Perm.swap a b bs)

theorem sortBy_perm (le : α → α → Bool) : ∀ l : List α, (sortBy le l).Perm l
  | [] => List.Perm.refl _
  | a :: as => (insertLe_perm le a (sortBy le as)).trans ((sortBy_perm le as).cons a)

theorem mem_sortBy {le : α → α → Bool} {l : List α} {a : α} :
    a ∈ sortBy le l ↔ a ∈ l :=
  (sortBy_perm le l).mem_iff

/-- A `find?` skipping filtered-out rows that could not match anyway. -/
theorem find?_filter_eq {l : List α} {p q : α → Bool}
    (h : ∀ x ∈ l, q x = false → p x = false) :
    (l.filter q).find? p = l.find? p := by
  induction l with
  | nil => rfl
  | cons a as ih =>
    have ih' := ih (fun x hx => h x (List.mem_cons_of_mem a hx))
    by_cases hq : q a = true
    · by_cases hp : p a = true
      · simp [List.filter_cons, hq, List.find?_cons, hp]
      · simp only [Bool.not_eq_true] at hp
        simp [List.filter_cons, hq, List.find?_cons, hp, ih']
    · simp only [Bool.not_eq_true] at hq
      have hp := h a (List.mem_cons_self a as) hq
      simp [List.filter_cons, hq, List.find?_cons, hp, ih']

/-- A fold of whole-list `map` updates is a `map` of pointwise folds. -/
theorem foldl_map_comm (f : β → α → α) :
    ∀ (l : List β) (xs : List α),
      l.foldl (fun acc b => acc.map (f b)) xs
        = xs.map (fun x => l.foldl (fun c b => f b c) x)
  | [], xs => by simp
  | b :: bs, xs => by
    simp only [List.foldl_cons]
    rw [foldl_map_comm f bs (xs.map (f b)), List.map_map]
    rfl

/-! ## Characterising the forward-recalculation pass -/

theorem recalc_foldl_eq_applyTriples :
    ∀ (subs : List Invoice) (invs : List Invoice) (r : ℚ),
      (subs.foldl recalcStep (invs, r)).1 = applyTriples (specTriples r subs) invs
  | [], invs, r => rfl
  | i :: is, invs, r => by
    simp only [List.foldl_cons, recalcStep, specTriples, applyTriples]
    exact recalc_foldl_eq_applyTriples is _ _

theorem applyTriples_eq_map (ts : List (Nat × ℚ × ℚ)) (invs : List Invoice) :
    applyTriples ts invs = invs.map (rowRecalc ts) := by
  simpa only [setInvoiceBalance] using
    foldl_map_comm
      (fun (t : Nat × ℚ × ℚ) (i : Invoice) =>
        if i.id == t.1 then { i with previous_balance := t.2.1, grand_total := t.2.2 }
        else i)
      ts invs

theorem rowRecalc_id (ts : List (Nat × ℚ × ℚ)) (i : Invoice) :
    (rowRecalc ts i).id = i.id := by
  induction ts generalizing i with
  | nil => rfl
  | cons t ts ih =>
    show (rowRecalc ts (if i.id == t.1 then
      { i with previous_balance := t.2.1, grand_total := t.2.2 } else i)).id = i.id
    by_cases h : (i.id == t.1) = true
    · rw [if_pos h]
      exact ih _
    · rw [if_neg h]
      exact ih i

theorem rowRecalc_of_not_mem {ts : List (Nat × ℚ × ℚ)} {i : Invoice}
    (h : ∀ t ∈ ts, t.1 ≠ i.id) : rowRecalc ts i = i := by
  induction ts with
  | nil => rfl
  | cons t ts ih =>
    have h1 : ¬ (i.id == t.1) = true := by
      simp only [beq_iff_eq]
      exact fun hv => h t (List.mem_cons_self t ts) hv.symm
    show rowRecalc ts (if i.id == t.1 then
      { i with previous_balance := t.2.1, grand_total := t.2.2 } else i) = i
    rw [if_neg h1]
    exact ih fun u hu => h u (List.mem_cons_of_mem t hu)

theorem rowRecalc_eq_find? (ts : List (Nat × ℚ × ℚ)) (i : Invoice)
    (hnd : (ts.map (·.1)).Nodup) :
    rowRecalc ts i =
      match ts.find? (fun t => t.1 == i.id) with
      | some t => { i with previous_balance := t.2.1, grand_total := t.2.2 }
      | none => i := by
  induction ts with
  | nil => rfl
  | cons t ts ih =>
    simp only [List.map_cons, List.nodup_cons] at hnd
    by_cases h : t.1 = i.id
    · have hrest : ∀ u ∈ ts, u.1 ≠ i.id := by
        intro u hu hv
        exact hnd.1 (h ▸ hv ▸ List.mem_map.mpr ⟨u, hu, rfl⟩)
      show rowRecalc ts (if i.id == t.1 then
        { i with previous_balance := t.2.1, grand_total := t.2.2 } else i) = _
      rw [if_pos (by simpa using h.symm)]
      rw [List.find?_cons_of_pos _ (by simpa using h)]
      exact rowRecalc_of_not_mem hrest
    · show rowRecalc ts (if i.id == t.1 then
        { i with previous_balance := t.2.1, grand_total := t.2.2 } else i) = _
      rw [if_neg (by simpa using fun hv : i.id = t.1 => h hv.symm)]
      rw [List.find?_cons_of_neg _ (by simpa using h)]
      exact ih hnd.2

theorem specTriples_map_fst (r : ℚ) :
    ∀ subs : List Invoice, (specTriples r subs).map (·.1) = subs.map (·.id)
  | [] => rfl
  | i :: is => by
    simp only [specTriples, List.map_cons, List.cons.injEq, true_and]
    exact specTriples_map_fst _ is

/-- Row ids of the fetched subsequent invoices are distinct whenever the
table's ids are (they form a sorted sublist of the table). -/
theorem subsequent_ids_nodup {db : DB} {p d n : String}
    (hids : (db.invoices.map (·.id)).Nodup) :
    ((subsequentInvoices p d n db).map (·.id)).Nodup := by
  have hfilter : ((db.invoices.filter (fun i =>
      i.party_name == p && invAfter d n i)).map (·.id)).Nodup :=
    ((List.filter_sublist db.invoices).map (·.id)).nodup hids
  exact (((sortBy_perm invoiceKeyLe _).map (·.id)).nodup_iff).mpr hfilter

/-- C5: `update_subsequent_invoice_balances` modifies only the `invoices`
table; each invoice row is rewritten to the `(previous_balance, grand_total)`
its id receives in the spec's triple list `specTriples running subsequent`
(running balance seeded by `balanceBeforeCutoff`, i.e. initial opening balance
plus invoice totals strictly before the cutoff minus payment amounts dated
`<= fromDate`, swept over the chronologically sorted subsequent invoices),
and rows outside the subsequent set are not modified. -/
theorem C5_recalc_forward_correct (db : DB) (p d n : String)
    (hids : (db.invoices.map (·.id)).Nodup) :
    (update_subsequent_invoice_balances p d n db).parties = db.parties
  ∧ (update_subsequent_invoice_balances p d n db).invoice_items = db.invoice_items
  ∧ (update_subsequent_invoice_balances p d n db).payments = db.payments
  ∧ (update_subsequent_invoice_balances p d n db).stock = db.stock
  ∧ (specTriples (balanceBeforeCutoff p d n db) (subsequentInvoices p d n db)).map (·.1)
      = (subsequentInvoices p d n db).map (·.id)
  ∧ (update_subsequent_invoice_balances p d n db).invoices
      = db.invoices.map (fun i =>
          match (specTriples (balanceBeforeCutoff p d n db)
              (subsequentInvoices p d n db)).find? (fun t => t.1 == i.id) with
          | some t => { i with previous_balance := t.2.1, grand_total := t.2.2 }
          | none => i)
  ∧ ∀ i ∈ db.invoices, ¬(i.party_name = p ∧ invAfter d n i = true)
      → i ∈ (update_subsequent_invoice_balances p d n db).invoices := by
  have htr : ((specTriples (balanceBeforeCutoff p d n db)
      (subsequentInvoices p d n db)).map (·.1)).Nodup := by
    rw [specTriples_map_fst]
    exact subsequent_ids_nodup hids
  have hmain : (update_subsequent_invoice_balances p d n db).invoices
      = db.invoices.map (fun i =>
          match (specTriples (balanceBeforeCutoff p d n db)
              (subsequentInvoices p d n db)).find? (fun t => t.1 == i.id) with
          | some t => { i with previous_balance := t.2.1, grand_total := t.2.2 }
          | none => i) := by
    show (List.foldl recalcStep (db.invoices, balanceBeforeCutoff p d n db)
      (subsequentInvoices p d n db)).1 = _
    rw [recalc_foldl_eq_applyTriples, applyTriples_eq_map]
    exact List.map_congr_left fun i _ => rowRecalc_eq_find? _ i htr
  refine ⟨rfl, rfl, rfl, rfl, specTriples_map_fst _ _, hmain, ?_⟩
  intro i hi hpred
  have hnone : (specTriples (balanceBeforeCutoff p d n db)
      (subsequentInvoices p d n db)).find? (fun t => t.1 == i.id) = none := by
    rw [List.find?_eq_none]
    intro t ht hbeq
    have hid : t.1 = i.id := by simpa using hbeq
    have hmem : t.1 ∈ (specTriples (balanceBeforeCutoff p d n db)
        (subsequentInvoices p d n db)).map (·.1) := List.mem_map.mpr ⟨t, ht, rfl⟩
    rw [specTriples_map_fst] at hmem
    obtain ⟨j, hj, hjid⟩ := List.mem_map.mp hmem
    have hjf : j ∈ db.invoices.filter (fun i => i.party_name == p && invAfter d n i) :=
      mem_sortBy.mp hj
    have hjmem := List.mem_filter.mp hjf
    have hji : j = i :=
      List.inj_on_of_nodup_map hids hjmem.1 hi (by rw [hjid, hid])
    apply hpred
    rw [← hji]
    simpa using hjmem.2
  rw [hmain]
  refine List.mem_map.mpr ⟨i, hi, ?_⟩
  rw [hnone]

/-! ## Concrete scenarios (spec §8's worked example and variants) -/

/-- C1: spec §8's worked example.  After creating invoice #30 (2024-01-01,
total 100) and #31 (2024-01-02, total 50) for "Acme", recording a payment of 60
(2024-01-03), and updating #30's total to 120, the code leaves invoice #31 with
`previous_balance = 0` and `grand_total = 50` — not the claimed 120 and 170 —
because the forward pass invoked by the update sums only the invoices strictly
before the cutoff, dropping the updated invoice's own new amount.  The claimed
current balance of 110 does hold, since `calculateCurrentBalance` ignores the
stored chain. -/
theorem C1_update_scenario :
    invoiceFields "31"
        (applyOps emptyDB [opCreate30, opCreate31, opPay60, opUpdate30]) = some (0, 50)
  ∧ invoiceFields "30"
        (applyOps emptyDB [opCreate30, opCreate31, opPay60, opUpdate30]) = some (0, 120)
  ∧ calculate_current_party_balance "Acme"
        (applyOps emptyDB [opCreate30, opCreate31, opPay60, opUpdate30]) = 110
  ∧ invoiceFields "31"
        (applyOps emptyDB [opCreate30, opCreate31, opPay60, opUpdate30])
      ≠ some (120, 170) := by
  norm_num +decide [applyOps, applyOp, opCreate30, opCreate31, opPay60, opUpdate30,
    itemAmt, invoiceFields, create_invoice_api, update_invoice_api,
    record_payment_api, emptyDB, ensureParty, lookupParty,
    calculate_current_party_balance, initialBalance, sumInvoices, sumPayments,
    round2, insertItems, findInvoice, update_subsequent_invoice_balances,
    subsequentInvoices, balanceBeforeCutoff, invAfter, invBefore, invoiceKeyLe,
    sortBy, insertLe, strLt, strLe, clLt, castInt, digitsVal, recalcStep,
    setInvoiceBalance]

theorem applyOps_update_scenario :
    applyOps emptyDB [opCreate30, opCreate31, opUpdate30] = dbAfterUpdate := by
  norm_num +decide [applyOps, applyOp, opCreate30, opCreate31, opUpdate30,
    itemAmt, create_invoice_api, update_invoice_api, emptyDB, ensureParty,
    lookupParty, calculate_current_party_balance, initialBalance, sumInvoices,
    sumPayments, round2, insertItems, findInvoice,
    update_subsequent_invoice_balances, subsequentInvoices, balanceBeforeCutoff,
    invAfter, invBefore, invoiceKeyLe, sortBy, insertLe, strLt, strLe, clLt,
    castInt, digitsVal, recalcStep, setInvoiceBalance, dbAfterUpdate]

/-- C2: the claimed invariant fails after a sequence of ledger operations.
After creating invoices #30 (2024-01-01, total 100) and #31 (2024-01-02, total
50) for "Acme" and updating #30's total to 120 — with no payments at all — the
store holds #30 with `grand_total = 120` and #31 with `previous_balance = 0`,
so the chain condition `I[k+1].previous_balance = I[k].grand_total` between the
two consecutive invoices is violated (the per-row equation
`grand_total = previous_balance + total_amount` does still hold). -/
theorem C2_chain_invariant_violated :
    ¬ ledgerChainOk "Acme" (applyOps emptyDB [opCreate30, opCreate31, opUpdate30]) := by
  rw [applyOps_update_scenario]
  rintro ⟨-, h2⟩
  have hs : partyInvoicesSorted "Acme" dbAfterUpdate =
      [⟨1, "30", "Acme", "2024-01-01", 120, 0, 120⟩,
       ⟨2, "31", "Acme", "2024-01-02", 50, 0, 50⟩] := by
    norm_num +decide [partyInvoicesSorted, dbAfterUpdate, sortBy, insertLe,
      invoiceKeyLe, strLt, clLt, castInt, digitsVal]
  rw [hs] at h2
  rcases (List.chain'_cons.mp h2).1 with hpb | heq
  · obtain ⟨q, hq, -⟩ := hpb
    simp [dbAfterUpdate] at hq
  · norm_num at heq

/-! ## C4: what deleting a payment actually does -/

/-- C4 counterexample: create invoice #30 (2024-01-01, 100), record payment 1
of 60 (2024-01-02), create invoice #31 (2024-01-03, 50) — stamped with
`previous_balance = 100 - 60 = 40` — then delete the payment.  The deletion
leaves every invoice row byte-for-byte unchanged: invoice #31 keeps
`previous_balance = 40` and `grand_total = 90`, still subtracting the deleted
payment's 60, instead of the re-derived 100 and 150 the claim requires. -/
theorem C4_delete_payment_counterexample :
    (delete_payment 1 (applyOps emptyDB [opCreate30, opPay60Early, opCreate31Late])).1.invoices
      = (applyOps emptyDB [opCreate30, opPay60Early, opCreate31Late]).invoices
  ∧ invoiceFields "31"
      (delete_payment 1 (applyOps emptyDB [opCreate30, opPay60Early, opCreate31Late])).1
      = some (40, 90)
  ∧ invoiceFields "31"
      (delete_payment 1 (applyOps emptyDB [opCreate30, opPay60Early, opCreate31Late])).1
      ≠ some (100, 150) := by
  norm_num +decide [applyOps, applyOp, opCreate30, opPay60Early, opCreate31Late,
    itemAmt, invoiceFields, create_invoice_api, record_payment_api,
    delete_payment, emptyDB, ensureParty, lookupParty,
    calculate_current_party_balance, initialBalance, sumInvoices, sumPayments,
    round2, insertItems, findInvoice]

/-- C4 amended: `delete_payment` removes exactly the payment row and reports
the party's recomputed current balance; it runs no ledger recalculation — the
`invoices` table (and every other table) is left unchanged. -/
theorem C4_amended_delete_payment_no_recalc (db : DB) (pid : Nat) (pmt : Payment)
    (h : db.payments.find? (fun q => q.id == pid) = some pmt) :
    (delete_payment pid db).1.invoices = db.invoices
  ∧ (delete_payment pid db).1.parties = db.parties
  ∧ (delete_payment pid db).1.invoice_items = db.invoice_items
  ∧ (delete_payment pid db).1.stock = db.stock
  ∧ (delete_payment pid db).1.payments = db.payments.filter (fun q => q.id ≠ pid)
  ∧ (delete_payment pid db).2
      = .deleted (calculate_current_party_balance pmt.party_name
          (delete_payment pid db).1) := by
  simp [delete_payment, h]

theorem C4_amended_witness :
    dbPayOnly.payments.find? (fun q => q.id == 1)
      = some (⟨1, "Acme", 60, "2024-01-02", none⟩ : Payment)
  ∧ ((delete_payment 1 dbPayOnly).1.invoices = dbPayOnly.invoices
  ∧ (delete_payment 1 dbPayOnly).1.parties = dbPayOnly.parties
  ∧ (delete_payment 1 dbPayOnly).1.invoice_items = dbPayOnly.invoice_items
  ∧ (delete_payment 1 dbPayOnly).1.stock = dbPayOnly.stock
  ∧ (delete_payment 1 dbPayOnly).1.payments
      = dbPayOnly.payments.filter (fun q => q.id ≠ 1)
  ∧ (delete_payment 1 dbPayOnly).2
      = .deleted (calculate_current_party_balance "Acme" (delete_payment 1 dbPayOnly).1)) := by
  have h : dbPayOnly.payments.find? (fun q => q.id == 1)
      = some (⟨1, "Acme", 60, "2024-01-02", none⟩ : Payment) := by
    simp [dbPayOnly]
  exact ⟨h, C4_amended_delete_payment_no_recalc dbPayOnly 1
    ⟨1, "Acme", 60, "2024-01-02", none⟩ h⟩

/-! ## C8: the current-balance computation -/

theorem round2_zero : round2 0 = 0 := by norm_num [round2]

/-- C8: after every sequence of API operations starting from the empty store,
`calculate_current_party_balance` returns the party's initial opening balance
(0 when the party row is missing) plus the sum of `total_amount` over all of
the party's invoices minus the sum of `amount` over all of the party's
payments, rounded to 2 decimal places.  Being a function of the store, it has
no side effect on it. -/
theorem C8_current_balance_formula (ops : List Op) (party : String) :
    calculate_current_party_balance party (applyOps emptyDB ops)
      = round2 (initialBalance (applyOps emptyDB ops) party
          + (((applyOps emptyDB ops).invoices.filter
              (fun i => i.party_name == party)).map (·.total_amount)).sum
          - (((applyOps emptyDB ops).payments.filter
              (fun p => p.party_name == party)).map (·.amount)).sum) := rfl

/-! ## C9: duplicate invoice numbers -/

/-- C9: `create_invoice_api` with an invoice number already present in the
`invoices` table — for whatever party — is rejected by the `UNIQUE` constraint
and the transaction is rolled back: the returned store is exactly the input
store (no invoice row, no item rows, and no auto-created party survive). -/
theorem C9_duplicate_invoice_number_conflict (db : DB) (req : CreateInvoiceReq)
    (hname : req.partyName ≠ "") (hdate : req.date ≠ "")
    (hnum : req.invoiceNumber ≠ "") (hitems : req.items ≠ [])
    (hdup : ∃ i ∈ db.invoices, i.invoice_number = req.invoiceNumber) :
    create_invoice_api req db = (db, .conflict) := by
  simp only [create_invoice_api]
  rw [if_neg (by simp [hname, hdate, hnum]), if_neg hitems, if_pos hdup]

theorem C9_witness :
    (("Other" : String) ≠ "" ∧ ("2024-02-01" : String) ≠ "" ∧ ("30" : String) ≠ ""
      ∧ [itemAmt 10] ≠ ([] : List ItemReq)
      ∧ ∃ i ∈ dbInv30.invoices, i.invoice_number = "30")
  ∧ create_invoice_api ⟨"Other", "2024-02-01", "30", [itemAmt 10]⟩ dbInv30
      = (dbInv30, .conflict) := by
  refine ⟨⟨by simp, by simp, by simp, by simp, ?_⟩, ?_⟩
  · exact ⟨⟨1, "30", "Acme", "2024-01-01", 100, 0, 100⟩, by simp [dbInv30], rfl⟩
  · exact C9_duplicate_invoice_number_conflict dbInv30 _ (by simp) (by simp) (by simp)
      (by simp) ⟨⟨1, "30", "Acme", "2024-01-01", 100, 0, 100⟩, by simp [dbInv30], rfl⟩

/-! ## C10: balance queries for unknown party names -/

/-- C10: `get_party_balance_for_invoice` for a name with no party row does not
fail: the missing opening balance reads as 0, the returned balance is the
rounded invoice sum minus payment sum for that name, and the reported
`initialOpeningBalance` is 0; when additionally no invoice or payment
references the name, the returned balance is 0. -/
theorem C10_missing_party_balance (db : DB) (name : String) (hname : name ≠ "")
    (habs : ∀ p ∈ db.parties, p.name ≠ name) :
    get_party_balance_for_invoice name db
      = .ok (round2 (sumInvoices db name - sumPayments db name)) 0
  ∧ (db.invoices.filter (fun i => i.party_name == name) = [] →
      db.payments.filter (fun p => p.party_name == name) = [] →
      get_party_balance_for_invoice name db = .ok 0 0) := by
  have hlook : lookupParty db name = none :=
    List.find?_eq_none.mpr (fun p hp => by simp [habs p hp])
  have hinit : initialBalance db name = 0 := by simp [initialBalance, hlook]
  have hmain : get_party_balance_for_invoice name db
      = .ok (round2 (sumInvoices db name - sumPayments db name)) 0 := by
    unfold get_party_balance_for_invoice calculate_current_party_balance
    rw [if_neg hname, hinit, zero_add]
  refine ⟨hmain, fun h1 h2 => ?_⟩
  have hsi : sumInvoices db name = 0 := by simp [sumInvoices, h1]
  have hsp : sumPayments db name = 0 := by simp [sumPayments, h2]
  rw [hmain, hsi, hsp, sub_zero, round2_zero]

theorem C10_witness :
    (("Ghost" : String) ≠ "" ∧ ∀ p ∈ dbInv30.parties, p.name ≠ "Ghost")
  ∧ get_party_balance_for_invoice "Ghost" dbInv30
      = .ok (round2 (sumInvoices dbInv30 "Ghost" - sumPayments dbInv30 "Ghost")) 0
  ∧ (dbInv30.invoices.filter (fun i => i.party_name == "Ghost") = [] →
      dbInv30.payments.filter (fun p => p.party_name == "Ghost") = [] →
      get_party_balance_for_invoice "Ghost" dbInv30 = .ok 0 0) := by
  have habs : ∀ p ∈ dbInv30.parties, p.name ≠ "Ghost" := by
    intro p hp
    simp [dbInv30] at hp
    simp [hp]
  exact ⟨⟨by simp, habs⟩, C10_missing_party_balance dbInv30 "Ghost" (by simp) habs⟩

/-! ## C3: deleting and re-creating an invoice -/

theorem ensureParty_invoices (name : String) (db : DB) :
    (ensureParty name db).invoices = db.invoices := by
  unfold ensureParty
  split <;> rfl

theorem ensureParty_payments (name : String) (db : DB) :
    (ensureParty name db).payments = db.payments := by
  unfold ensureParty
  split <;> rfl

theorem ensureParty_initialBalance (name : String) (db : DB) :
    initialBalance (ensureParty name db) name = initialBalance db name := by
  unfold ensureParty
  cases h : lookupParty db name with
  | some p => simp [h]
  | none =>
    have hnone : db.parties.find? (fun p => p.name == name) = none := h
    simp [h, initialBalance, lookupParty, List.find?_append, hnone]

theorem insertItems_invoices (iid : Nat) :
    ∀ (its : List ItemReq) (db : DB), (insertItems iid its db).invoices = db.invoices
  | [], _ => rfl
  | _ :: its, _ => insertItems_invoices iid its _

/-- C3 counterexample: with invoices #30 (2024-01-01, 100) and #31
(2024-01-02, 50) for "Acme" — stored chain #30 ↦ (0, 100), #31 ↦ (100, 150) —
deleting #30 and re-creating it with identical number, date and items yields
#30 ↦ (50, 150) (its `previous_balance` is now the party's full current
balance, which includes the
later invoice #31) and #31 ↦ (0, 50) (stamped by the deletion's forward pass
and never restored, since creation runs no forward pass).  The balance chain is
not restored. -/
theorem C3_delete_recreate_counterexample :
    invoiceFields "30" (applyOps emptyDB [opCreate30, opCreate31]) = some (0, 100)
  ∧ invoiceFields "31" (applyOps emptyDB [opCreate30, opCreate31]) = some (100, 150)
  ∧ invoiceFields "30"
      ((create_invoice_api ⟨"Acme", "2024-01-01", "30", [itemAmt 100]⟩
        (delete_invoice "30" (applyOps emptyDB [opCreate30, opCreate31])).1).1)
      = some (50, 150)
  ∧ invoiceFields "31"
      ((create_invoice_api ⟨"Acme", "2024-01-01", "30", [itemAmt 100]⟩
        (delete_invoice "30" (applyOps emptyDB [opCreate30, opCreate31])).1).1)
      = some (0, 50) := by
  norm_num +decide [applyOps, applyOp, opCreate30, opCreate31, itemAmt,
    invoiceFields, create_invoice_api, delete_invoice, emptyDB, ensureParty,
    lookupParty, calculate_current_party_balance, initialBalance, sumInvoices,
    sumPayments, round2, insertItems, findInvoice,
    update_subsequent_invoice_balances, subsequentInvoices, balanceBeforeCutoff,
    invAfter, invBefore, invoiceKeyLe, sortBy, insertLe, strLt, strLe, clLt,
    castInt, digitsVal, recalcStep, setInvoiceBalance]

/-- C3 amended: delete-then-identical-re-create does restore every invoice's
stored `previous_balance` and `grand_total` provided the deleted invoice is
chronologically strictly last among its party's invoices, the party has no
payments, and the invoice's stored fields are consistent (its
`previous_balance` is the rounded opening balance plus the other invoices'
totals, its `grand_total` is `previous_balance + total_amount`, and its
`total_amount` is the rounded sum of the re-created items).  In general (see
the counterexample) the chain is not restored, because re-creation stamps
`previous_balance` with the party's full current balance — including
chronologically later invoices — and runs no forward pass. -/
theorem C3_amended_restore_last_invoice (db : DB) (n : String) (I : Invoice)
    (items : List ItemReq)
    (hI : findInvoice db n = some I)
    (hidsN : (db.invoices.map (·.id)).Nodup)
    (hnumsN : (db.invoices.map (·.invoice_number)).Nodup)
    (hlast : ∀ j ∈ db.invoices, j.party_name = I.party_name → j.id ≠ I.id →
        invBefore I.date I.invoice_number j = true)
    (hnopay : ∀ q ∈ db.payments, q.party_name ≠ I.party_name)
    (hprev : I.previous_balance
      = round2 (initialBalance db I.party_name
          + ((db.invoices.filter (fun j =>
              (j.party_name == I.party_name) && decide (j.id ≠ I.id))).map
            (·.total_amount)).sum))
    (hgrand : I.grand_total = I.previous_balance + I.total_amount)
    (htotal : round2 ((items.map (·.amount)).sum) = I.total_amount)
    (hitems : items ≠ [])
    (hpn : I.party_name ≠ "") (hd : I.date ≠ "") (hn : n ≠ "") :
    ∀ m, invoiceFields m
        ((create_invoice_api ⟨I.party_name, I.date, n, items⟩
          (delete_invoice n db).1).1)
      = invoiceFields m db := by
  have hImem : I ∈ db.invoices := List.mem_of_find?_eq_some hI
  have hInum : I.invoice_number = n := by simpa using List.find?_some hI
  have hdel : (delete_invoice n db).1
      = update_subsequent_invoice_balances I.party_name I.date I.invoice_number
          { db with
            invoice_items := db.invoice_items.filter (fun it => it.invoice_id ≠ I.id),
            invoices := db.invoices.filter (fun i => i.id ≠ I.id) } := by
    simp only [delete_invoice, hI]
  set db1 : DB :=
    { db with
      invoice_items := db.invoice_items.filter (fun it => it.invoice_id ≠ I.id),
      invoices := db.invoices.filter (fun i => i.id ≠ I.id) } with hdb1
  have hmem_db1 : ∀ j ∈ db1.invoices, j ∈ db.invoices ∧ j.id ≠ I.id := by
    intro j hj
    have hj' := List.mem_filter.mp hj
    exact ⟨hj'.1, by simpa using hj'.2⟩
  have hsubs : subsequentInvoices I.party_name I.date I.invoice_number db1 = [] := by
    unfold subsequentInvoices
    have hnilf : db1.invoices.filter
        (fun i => i.party_name == I.party_name
          && invAfter I.date I.invoice_number i) = [] := by
      rw [List.filter_eq_nil_iff]
      intro j hj hpred
      obtain ⟨hjm, hjid⟩ := hmem_db1 j hj
      simp only [Bool.and_eq_true, beq_iff_eq] at hpred
      have hbef := hlast j hjm hpred.1 hjid
      rw [invBefore_not_invAfter hbef] at hpred
      exact Bool.false_ne_true hpred.2
    rw [hnilf]
    rfl
  have hrecalc : update_subsequent_invoice_balances I.party_name I.date
      I.invoice_number db1 = db1 := by
    unfold update_subsequent_invoice_balances
    rw [hsubs]
    rfl
  have hstate : (delete_invoice n db).1 = db1 := by rw [hdel, hrecalc]
  have hnodupn : ¬ ∃ i ∈ db1.invoices, i.invoice_number = n := by
    rintro ⟨j, hj, hjn⟩
    obtain ⟨hjm, hjid⟩ := hmem_db1 j hj
    have hji : j = I :=
      List.inj_on_of_nodup_map hnumsN hjm hImem (by rw [hjn, hInum])
    exact hjid (by rw [hji])
  have hpay1 : sumPayments (ensureParty I.party_name db1) I.party_name = 0 := by
    unfold sumPayments
    rw [ensureParty_payments]
    have : db1.payments.filter (fun q => q.party_name == I.party_name) = [] := by
      rw [List.filter_eq_nil_iff]
      intro q hq hpred
      exact hnopay q hq (by simpa using hpred)
    rw [this]
    rfl
  have hsum1 : sumInvoices (ensureParty I.party_name db1) I.party_name
      = ((db.invoices.filter (fun j =>
          (j.party_name == I.party_name) && decide (j.id ≠ I.id))).map
        (·.total_amount)).sum := by
    unfold sumInvoices
    rw [ensureParty_invoices]
    show (((db.invoices.filter (fun i => i.id ≠ I.id)).filter
      (fun i => i.party_name == I.party_name)).map (·.total_amount)).sum = _
    rw [List.filter_filter]
  have hinit1 : initialBalance (ensureParty I.party_name db1) I.party_name
      = initialBalance db I.party_name := by
    rw [ensureParty_initialBalance]
    rfl
  have hcalc : calculate_current_party_balance I.party_name
      (ensureParty I.party_name db1) = I.previous_balance := by
    unfold calculate_current_party_balance
    rw [hinit1, hsum1, hpay1, sub_zero, ← hprev]
  have hfinal : ((create_invoice_api ⟨I.party_name, I.date, n, items⟩ db1).1).invoices
      = db1.invoices
        ++ [⟨(ensureParty I.party_name db1).nextInvoiceId, n, I.party_name, I.date,
             I.total_amount, I.previous_balance, I.grand_total⟩] := by
    simp only [create_invoice_api]
    rw [if_neg (by simp [hpn, hd, hn]), if_neg hitems, if_neg hnodupn]
    show (insertItems _ items _).invoices = _
    rw [insertItems_invoices]
    show (ensureParty I.party_name db1).invoices ++ _ = _
    rw [ensureParty_invoices]
    rw [htotal, hcalc, ← hgrand]
  intro m
  show ((((create_invoice_api ⟨I.party_name, I.date, n, items⟩
      (delete_invoice n db).1).1).invoices.find?
        (fun i => i.invoice_number == m)).map
      (fun i => (i.previous_balance, i.grand_total)))
    = ((db.invoices.find? (fun i => i.invoice_number == m)).map
      (fun i => (i.previous_balance, i.grand_total)))
  rw [hstate, hfinal, List.find?_append]
  by_cases hm : m = n
  · subst hm
    have h1 : db1.invoices.find? (fun i => i.invoice_number == m) = none := by
      rw [List.find?_eq_none]
      intro j hj hpred
      exact hnodupn ⟨j, hj, by simpa using hpred⟩
    rw [h1, List.find?_cons_of_pos _ (by simp)]
    show some (I.previous_balance, I.grand_total) = _
    rw [show db.invoices.find? (fun i => i.invoice_number == m) = some I from hI]
    rfl
  · have h2 : List.find? (fun i => i.invoice_number == m)
        [(⟨(ensureParty I.party_name db1).nextInvoiceId, n, I.party_name, I.date,
           I.total_amount, I.previous_balance, I.grand_total⟩ : Invoice)] = none := by
      rw [List.find?_eq_none]
      intro j hj hpred
      rw [List.mem_singleton] at hj
      apply hm
      have : j.invoice_number = m := by simpa using hpred
      rw [← this, hj]
    have h3 : db1.invoices.find? (fun i => i.invoice_number == m)
        = db.invoices.find? (fun i => i.invoice_number == m) := by
      apply find?_filter_eq
      intro x hx hq
      have hxid : x.id = I.id := by simpa using hq
      have hxI : x = I := List.inj_on_of_nodup_map hidsN hx hImem hxid
      rw [hxI, hInum]
      simpa using fun hc : n = m => hm hc.symm
    rw [h2, h3]
    cases db.invoices.find? (fun i => i.invoice_number == m) <;> rfl

theorem C3_amended_witness :
    (findInvoice dbInv30 "30"
        = some (⟨1, "30", "Acme", "2024-01-01", 100, 0, 100⟩ : Invoice)
      ∧ (dbInv30.invoices.map (·.id)).Nodup
      ∧ (dbInv30.invoices.map (·.invoice_number)).Nodup
      ∧ (0 : ℚ) = round2 (initialBalance dbInv30 "Acme"
          + ((dbInv30.invoices.filter (fun j =>
              (j.party_name == "Acme") && decide (j.id ≠ 1))).map (·.total_amount)).sum)
      ∧ round2 (([itemAmt 100].map (·.amount)).sum) = 100)
  ∧ ∀ m, invoiceFields m
        ((create_invoice_api ⟨"Acme", "2024-01-01", "30", [itemAmt 100]⟩
          (delete_invoice "30" dbInv30).1).1)
      = invoiceFields m dbInv30 := by
  have hI : findInvoice dbInv30 "30"
      = some (⟨1, "30", "Acme", "2024-01-01", 100, 0, 100⟩ : Invoice) := rfl
  have hprev : (0 : ℚ) = round2 (initialBalance dbInv30 "Acme"
      + ((dbInv30.invoices.filter (fun j =>
          (j.party_name == "Acme") && decide (j.id ≠ 1))).map (·.total_amount)).sum) := by
    norm_num +decide [dbInv30, initialBalance, lookupParty, round2]
  have htotal : round2 (([itemAmt 100].map (·.amount)).sum) = 100 := by
    norm_num [itemAmt, round2]
  refine ⟨⟨hI, by decide, by decide, hprev, htotal⟩, ?_⟩
  exact C3_amended_restore_last_invoice dbInv30 "30"
    ⟨1, "30", "Acme", "2024-01-01", 100, 0, 100⟩ [itemAmt 100] hI
    (by decide) (by decide)
    (by
      intro j hj hparty hid
      simp only [dbInv30, List.mem_singleton] at hj
      rw [hj] at hid
      simp at hid)
    (by intro q hq; simp [dbInv30] at hq)
    hprev
    (by norm_num)
    htotal
    (by simp)
    (by simp) (by simp) (by simp)

theorem C5_witness :
    (dbAfterUpdate.invoices.map (·.id)).Nodup
  ∧ ((update_subsequent_invoice_balances "Acme" "2024-01-01" "30" dbAfterUpdate).parties
        = dbAfterUpdate.parties
  ∧ (update_subsequent_invoice_balances "Acme" "2024-01-01" "30" dbAfterUpdate).invoice_items
        = dbAfterUpdate.invoice_items
  ∧ (update_subsequent_invoice_balances "Acme" "2024-01-01" "30" dbAfterUpdate).payments
        = dbAfterUpdate.payments
  ∧ (update_subsequent_invoice_balances "Acme" "2024-01-01" "30" dbAfterUpdate).stock
        = dbAfterUpdate.stock
  ∧ (specTriples (balanceBeforeCutoff "Acme" "2024-01-01" "30" dbAfterUpdate)
        (subsequentInvoices "Acme" "2024-01-01" "30" dbAfterUpdate)).map (·.1)
      = (subsequentInvoices "Acme" "2024-01-01" "30" dbAfterUpdate).map (·.id)
  ∧ (update_subsequent_invoice_balances "Acme" "2024-01-01" "30" dbAfterUpdate).invoices
      = dbAfterUpdate.invoices.map (fun i =>
          match (specTriples (balanceBeforeCutoff "Acme" "2024-01-01" "30" dbAfterUpdate)
              (subsequentInvoices "Acme" "2024-01-01" "30" dbAfterUpdate)).find?
              (fun t => t.1 == i.id) with
          | some t => { i with previous_balance := t.2.1, grand_total := t.2.2 }
          | none => i)
  ∧ ∀ i ∈ dbAfterUpdate.invoices, ¬(i.party_name = "Acme" ∧ invAfter "2024-01-01" "30" i = true)
      → i ∈ (update_subsequent_invoice_balances "Acme" "2024-01-01" "30" dbAfterUpdate).invoices) :=
  ⟨by decide,
   C5_recalc_forward_correct dbAfterUpdate "Acme" "2024-01-01" "30" (by decide)⟩

/-! ## Stock lemmas -/

theorem totalAvailable_cons (p : String) (c : StockBatch) (cs : List StockBatch) :
    totalAvailable p (c :: cs)
      = (if c.product_name == p then c.quantity else 0) + totalAvailable p cs := by
  unfold totalAvailable
  rw [List.filter_cons]
  by_cases h : (c.product_name == p) = true
  · simp [h]
  · simp only [Bool.not_eq_true] at h
    simp [h]

theorem totalAvailable_nonneg {p : String} {stock : List StockBatch}
    (hnn : ∀ b ∈ stock, 0 ≤ b.quantity) : 0 ≤ totalAvailable p stock := by
  apply List.sum_nonneg
  intro x hx
  obtain ⟨b, hb, rfl⟩ := List.mem_map.mp hx
  exact hnn b (List.mem_filter.mp hb).1

/-- One `UPDATE stock SET quantity = v WHERE id = iid` leaves all ids as they
were. -/
theorem updRow_ids (iid : Nat) (v : ℚ) (stock : List StockBatch) :
    ((stock.map (fun c => if c.id == iid then { c with quantity := v } else c)).map
      (·.id)) = stock.map (·.id) := by
  rw [List.map_map]
  apply List.map_congr_left
  intro c _
  by_cases h : (c.id == iid) = true <;> simp [Function.comp, h]

theorem mem_updRow_of_ne {iid : Nat} {v : ℚ} {stock : List StockBatch} {x : StockBatch}
    (hx : x ∈ stock) (hne : x.id ≠ iid) :
    x ∈ stock.map (fun c => if c.id == iid then { c with quantity := v } else c) :=
  List.mem_map.mpr ⟨x, hx, by simp [hne]⟩

/-- Effect of one quantity update on a product's total, when row ids are
unique. -/
theorem totalAvailable_updRow (p : String) (v : ℚ) :
    ∀ (stock : List StockBatch), ((stock.map (·.id)).Nodup) →
      ∀ b ∈ stock,
        totalAvailable p
            (stock.map (fun c => if c.id == b.id then { c with quantity := v } else c))
          = totalAvailable p stock
            + (if b.product_name == p then v - b.quantity else 0)
  | [], _, b, hb => absurd hb (List.not_mem_nil b)
  | c :: cs, hids, b, hb => by
    simp only [List.map_cons, List.nodup_cons] at hids
    rcases List.mem_cons.mp hb with rfl | hbcs
    · have htail : cs.map (fun x => if x.id == b.id then { x with quantity := v } else x)
          = cs := by
        have hpt : ∀ x ∈ cs,
            (if x.id == b.id then { x with quantity := v } else x) = id x := by
          intro x hx
          have hne : x.id ≠ b.id := fun hv => hids.1 (List.mem_map.mpr ⟨x, hx, hv⟩)
          simp [hne]
        rw [List.map_congr_left hpt, List.map_id]
      simp only [List.map_cons, beq_self_eq_true, if_true, htail]
      rw [totalAvailable_cons, totalAvailable_cons]
      by_cases hp : (b.product_name == p) = true
      · simp only [hp, if_true]
        ring
      · simp only [Bool.not_eq_true] at hp
        simp [hp]
    · have hcne : (c.id == b.id) = false := by
        simp only [beq_eq_false_iff_ne, ne_eq]
        intro hv
        exact hids.1 (List.mem_map.mpr ⟨b, hbcs, hv.symm⟩)
      simp only [List.map_cons, hcne, Bool.false_eq_true, if_neg, if_false]
      rw [totalAvailable_cons, totalAvailable_cons,
        totalAvailable_updRow p v cs hids.2 b hbcs]
      ring

theorem deductAmounts_nonpos {rem : ℚ} (h : rem ≤ 0) :
    ∀ l : List StockBatch, deductAmounts rem l = []
  | [] => rfl
  | _ :: _ => by simp [deductAmounts, h]

theorem applyStockUpdates_ids :
    ∀ (ups : List (Nat × ℚ)) (stock : List StockBatch),
      (applyStockUpdates ups stock).map (·.id) = stock.map (·.id)
  | [], _ => rfl
  | u :: ups, stock => by
    show (applyStockUpdates ups
      (stock.map (fun b => if b.id == u.1 then { b with quantity := u.2 } else b))).map
        (·.id) = _
    rw [applyStockUpdates_ids ups _, updRow_ids]

/-- Deducting `q` of product `p` FIFO removes exactly `q` from `p`'s total,
when `q` is positive and covered by the fetched batches. -/
theorem deduct_total_eq (p : String) :
    ∀ (fifo : List StockBatch) (q : ℚ) (stock : List StockBatch),
      ((stock.map (·.id)).Nodup) →
      (∀ b ∈ fifo, b ∈ stock) →
      ((fifo.map (·.id)).Nodup) →
      (∀ b ∈ fifo, b.product_name = p) →
      (∀ b ∈ fifo, 0 < b.quantity) →
      0 < q → q ≤ ((fifo.map (·.quantity)).sum) →
      totalAvailable p (applyStockUpdates (deductAmounts q fifo) stock)
        = totalAvailable p stock - q
  | [], q, stock, _, _, _, _, _, hq, hle => by
    simp only [List.map_nil, List.sum_nil] at hle
    exact absurd (lt_of_lt_of_le hq hle) (lt_irrefl 0)
  | b :: bs, q, stock, hids, hsub, hfids, hfp, hfpos, hq, hle => by
    have hbq : 0 < b.quantity := hfpos b (List.mem_cons_self b bs)
    have hbmem : b ∈ stock := hsub b (List.mem_cons_self b bs)
    have hbp : (b.product_name == p) = true := by
      simpa using hfp b (List.mem_cons_self b bs)
    simp only [List.map_cons, List.nodup_cons] at hfids
    rw [show deductAmounts q (b :: bs)
        = (b.id, b.quantity - min b.quantity q)
            :: deductAmounts (q - min b.quantity q) bs from by
      simp [deductAmounts, not_le.mpr hq]]
    show totalAvailable p
        (applyStockUpdates (deductAmounts (q - min b.quantity q) bs)
          (stock.map (fun c => if c.id == b.id then
            { c with quantity := b.quantity - min b.quantity q } else c))) = _
    have hstep : totalAvailable p
        (stock.map (fun c => if c.id == b.id then
          { c with quantity := b.quantity - min b.quantity q } else c))
        = totalAvailable p stock + ((b.quantity - min b.quantity q) - b.quantity) := by
      rw [totalAvailable_updRow p _ stock hids b hbmem, hbp]
      simp
    by_cases hcase : q ≤ b.quantity
    · have hmin : min b.quantity q = q := min_eq_right hcase
      rw [hmin] at hstep ⊢
      rw [deductAmounts_nonpos (by simp) bs]
      show totalAvailable p
        (stock.map (fun c => if c.id == b.id then
          { c with quantity := b.quantity - q } else c)) = _
      rw [hstep]
      ring
    · have hblt : b.quantity < q := not_le.mp hcase
      have hmin : min b.quantity q = b.quantity := min_eq_left (le_of_lt hblt)
      rw [hmin] at hstep ⊢
      rw [deduct_total_eq p bs (q - b.quantity) _
        (by rw [updRow_ids]; exact hids)
        (fun x hx => mem_updRow_of_ne (hsub x (List.mem_cons_of_mem b hx))
          (fun hv => hfids.1 (List.mem_map.mpr ⟨x, hx, hv⟩)))
        hfids.2
        (fun x hx => hfp x (List.mem_cons_of_mem b hx))
        (fun x hx => hfpos x (List.mem_cons_of_mem b hx))
        (sub_pos.mpr hblt)
        (by
          simp only [List.map_cons, List.sum_cons] at hle
          linarith)]
      rw [hstep]
      ring

/-- FIFO deduction of product `p` does not change any other product's total. -/
theorem deduct_total_other (p p' : String) (hne : p' ≠ p) :
    ∀ (fifo : List StockBatch) (q : ℚ) (stock : List StockBatch),
      ((stock.map (·.id)).Nodup) →
      (∀ b ∈ fifo, b ∈ stock) →
      ((fifo.map (·.id)).Nodup) →
      (∀ b ∈ fifo, b.product_name = p) →
      totalAvailable p' (applyStockUpdates (deductAmounts q fifo) stock)
        = totalAvailable p' stock
  | [], _, _, _, _, _, _ => rfl
  | b :: bs, q, stock, hids, hsub, hfids, hfp => by
    by_cases hq : q ≤ 0
    · rw [deductAmounts_nonpos hq]
      rfl
    · have hbmem : b ∈ stock := hsub b (List.mem_cons_self b bs)
      have hbp : (b.product_name == p') = false := by
        simp only [beq_eq_false_iff_ne, ne_eq]
        rw [hfp b (List.mem_cons_self b bs)]
        exact fun hv => hne hv.symm
      simp only [List.map_cons, List.nodup_cons] at hfids
      rw [show deductAmounts q (b :: bs)
          = (b.id, b.quantity - min b.quantity q)
              :: deductAmounts (q - min b.quantity q) bs from by
        simp [deductAmounts, hq]]
      show totalAvailable p'
          (applyStockUpdates (deductAmounts (q - min b.quantity q) bs)
            (stock.map (fun c => if c.id == b.id then
              { c with quantity := b.quantity - min b.quantity q } else c))) = _
      rw [deduct_total_other p p' hne bs _ _
        (by rw [updRow_ids]; exact hids)
        (fun x hx => mem_updRow_of_ne (hsub x (List.mem_cons_of_mem b hx))
          (fun hv => hfids.1 (List.mem_map.mpr ⟨x, hx, hv⟩)))
        hfids.2
        (fun x hx => hfp x (List.mem_cons_of_mem b hx))]
      rw [totalAvailable_updRow p' _ stock hids b hbmem, hbp]
      simp

/-- FIFO deduction never increases any product's total. -/
theorem deduct_total_le (p'' : String) :
    ∀ (fifo : List StockBatch) (q : ℚ) (stock : List StockBatch),
      ((stock.map (·.id)).Nodup) →
      (∀ b ∈ fifo, b ∈ stock) →
      ((fifo.map (·.id)).Nodup) →
      (∀ b ∈ fifo, 0 < b.quantity) →
      totalAvailable p'' (applyStockUpdates (deductAmounts q fifo) stock)
        ≤ totalAvailable p'' stock
  | [], _, _, _, _, _, _ => le_refl _
  | b :: bs, q, stock, hids, hsub, hfids, hfpos => by
    by_cases hq : q ≤ 0
    · rw [deductAmounts_nonpos hq]
      exact le_refl _
    · have hbmem : b ∈ stock := hsub b (List.mem_cons_self b bs)
      have hbq : 0 < b.quantity := hfpos b (List.mem_cons_self b bs)
      simp only [List.map_cons, List.nodup_cons] at hfids
      rw [show deductAmounts q (b :: bs)
          = (b.id, b.quantity - min b.quantity q)
              :: deductAmounts (q - min b.quantity q) bs from by
        simp [deductAmounts, hq]]
      show totalAvailable p''
          (applyStockUpdates (deductAmounts (q - min b.quantity q) bs)
            (stock.map (fun c => if c.id == b.id then
              { c with quantity := b.quantity - min b.quantity q } else c))) ≤ _
      refine le_trans (deduct_total_le p'' bs _ _
        (by rw [updRow_ids]; exact hids)
        (fun x hx => mem_updRow_of_ne (hsub x (List.mem_cons_of_mem b hx))
          (fun hv => hfids.1 (List.mem_map.mpr ⟨x, hx, hv⟩)))
        hfids.2
        (fun x hx => hfpos x (List.mem_cons_of_mem b hx))) ?_
      rw [totalAvailable_updRow p'' _ stock hids b hbmem]
      have hminle : 0 ≤ min b.quantity q :=
        le_min (le_of_lt hbq) (le_of_lt (not_le.mp hq))
      by_cases hp : (b.product_name == p'') = true
      · rw [hp]
        simp only [if_true]
        linarith
      · simp only [Bool.not_eq_true] at hp
        simp [hp]

/-- FIFO deduction never drives a batch's remaining quantity below zero. -/
theorem deduct_nonneg :
    ∀ (fifo : List StockBatch) (q : ℚ) (stock : List StockBatch),
      (∀ b ∈ fifo, 0 < b.quantity) →
      (∀ b ∈ stock, 0 ≤ b.quantity) →
      ∀ x ∈ applyStockUpdates (deductAmounts q fifo) stock, 0 ≤ x.quantity
  | [], _, _, _, hnn, x, hx => hnn x hx
  | b :: bs, q, stock, hfpos, hnn, x, hx => by
    by_cases hq : q ≤ 0
    · rw [deductAmounts_nonpos hq] at hx
      exact hnn x hx
    · have hbq : 0 < b.quantity := hfpos b (List.mem_cons_self b bs)
      rw [show deductAmounts q (b :: bs)
          = (b.id, b.quantity - min b.quantity q)
              :: deductAmounts (q - min b.quantity q) bs from by
        simp [deductAmounts, hq]] at hx
      have hx' : x ∈ applyStockUpdates (deductAmounts (q - min b.quantity q) bs)
          (stock.map (fun c => if c.id == b.id then
            { c with quantity := b.quantity - min b.quantity q } else c)) := hx
      refine deduct_nonneg bs _ _
        (fun y hy => hfpos y (List.mem_cons_of_mem b hy)) ?_ x hx'
      intro y hy
      obtain ⟨c, hc, rfl⟩ := List.mem_map.mp hy
      by_cases hcb : (c.id == b.id) = true
      · simp only [hcb, if_true]
        show 0 ≤ b.quantity - min b.quantity q
        simp [min_le_left]
      · simp only [Bool.not_eq_true] at hcb
        simp only [hcb, Bool.false_eq_true, if_false]
        exact hnn c hc

theorem fifoBatches_mem {p : String} {stock : List StockBatch} {b : StockBatch}
    (hb : b ∈ fifoBatches p stock) :
    b ∈ stock ∧ b.product_name = p ∧ 0 < b.quantity := by
  have h := List.mem_filter.mp (mem_sortBy.mp hb)
  simp only [Bool.and_eq_true, beq_iff_eq, decide_eq_true_eq] at h
  exact ⟨h.1, h.2.1, h.2.2⟩

theorem fifoBatches_ids_nodup {p : String} {stock : List StockBatch}
    (hids : (stock.map (·.id)).Nodup) :
    ((fifoBatches p stock).map (·.id)).Nodup := by
  have hfilter : ((stock.filter (fun b =>
      b.product_name == p && decide (0 < b.quantity))).map (·.id)).Nodup :=
    ((List.filter_sublist stock).map (·.id)).nodup hids
  exact (((sortBy_perm batchKeyLe _).map (·.id)).nodup_iff).mpr hfilter

/-- With only nonnegative batch quantities, the positive-quantity batches of a
product sum to exactly its total available quantity. -/
theorem sum_filter_pos (p : String) :
    ∀ (stock : List StockBatch), (∀ b ∈ stock, 0 ≤ b.quantity) →
      ((stock.filter (fun b =>
          b.product_name == p && decide (0 < b.quantity))).map (·.quantity)).sum
        = totalAvailable p stock
  | [], _ => rfl
  | c :: cs, hnn => by
    have ih := sum_filter_pos p cs (fun b hb => hnn b (List.mem_cons_of_mem c hb))
    rw [totalAvailable_cons, List.filter_cons]
    by_cases hp : (c.product_name == p) = true
    · by_cases hpos : 0 < c.quantity
      · simp [hp, hpos, ih]
      · have hq0 : c.quantity = 0 :=
          le_antisymm (not_lt.mp hpos) (hnn c (List.mem_cons_self c cs))
        simp [hp, hpos, hq0, ih]
    · simp only [Bool.not_eq_true] at hp
      simp [hp, ih]

theorem fifo_sum_eq_total (p : String) (stock : List StockBatch)
    (hnn : ∀ b ∈ stock, 0 ≤ b.quantity) :
    ((fifoBatches p stock).map (·.quantity)).sum = totalAvailable p stock := by
  unfold fifoBatches
  rw [((sortBy_perm batchKeyLe _).map (·.quantity)).sum_eq]
  exact sum_filter_pos p stock hnn

theorem deductOne_total (p : String) (q : ℚ) (stock : List StockBatch)
    (hids : (stock.map (·.id)).Nodup) (hnn : ∀ b ∈ stock, 0 ≤ b.quantity)
    (hq : 0 < q) (hle : q ≤ totalAvailable p stock) :
    totalAvailable p (deductOne p q stock) = totalAvailable p stock - q := by
  refine deduct_total_eq p (fifoBatches p stock) q stock hids
    (fun _ hb => (fifoBatches_mem hb).1) (fifoBatches_ids_nodup hids)
    (fun _ hb => (fifoBatches_mem hb).2.1) (fun _ hb => (fifoBatches_mem hb).2.2)
    hq ?_
  rw [fifo_sum_eq_total p stock hnn]
  exact hle

theorem deductOne_total_other (p p' : String) (hne : p' ≠ p) (q : ℚ)
    (stock : List StockBatch) (hids : (stock.map (·.id)).Nodup) :
    totalAvailable p' (deductOne p q stock) = totalAvailable p' stock :=
  deduct_total_other p p' hne (fifoBatches p stock) q stock hids
    (fun _ hb => (fifoBatches_mem hb).1) (fifoBatches_ids_nodup hids)
    (fun _ hb => (fifoBatches_mem hb).2.1)

theorem deductOne_le (p'' p : String) (q : ℚ) (stock : List StockBatch)
    (hids : (stock.map (·.id)).Nodup) :
    totalAvailable p'' (deductOne p q stock) ≤ totalAvailable p'' stock :=
  deduct_total_le p'' (fifoBatches p stock) q stock hids
    (fun _ hb => (fifoBatches_mem hb).1) (fifoBatches_ids_nodup hids)
    (fun _ hb => (fifoBatches_mem hb).2.2)

theorem deductOne_nonneg (p : String) (q : ℚ) (stock : List StockBatch)
    (hnn : ∀ b ∈ stock, 0 ≤ b.quantity) :
    ∀ x ∈ deductOne p q stock, 0 ≤ x.quantity :=
  deduct_nonneg (fifoBatches p stock) q stock
    (fun _ hb => (fifoBatches_mem hb).2.2) hnn

theorem deductOne_ids (p : String) (q : ℚ) (stock : List StockBatch) :
    (deductOne p q stock).map (·.id) = stock.map (·.id) :=
  applyStockUpdates_ids _ _

/-! ## The deduction request loop -/

theorem reqSum_cons (p : String) (r : DeductReq) (rs : List DeductReq) :
    reqSum p (r :: rs)
      = (if r.productName == p then r.qty else 0) + reqSum p rs := by
  unfold reqSum
  rw [List.filter_cons]
  by_cases h : (r.productName == p) = true
  · simp [h]
  · simp only [Bool.not_eq_true] at h
    simp [h]

theorem reqSum_nonneg {p : String} {reqs : List DeductReq}
    (h : ∀ r ∈ reqs, 0 < r.qty) : 0 ≤ reqSum p reqs := by
  apply List.sum_nonneg
  intro x hx
  obtain ⟨r, hr, rfl⟩ := List.mem_map.mp hx
  exact le_of_lt (h r (List.mem_filter.mp hr).1)

/-- When every product's requested total is covered by its available total,
the request loop reports no error and performs exactly the per-request FIFO
deductions, removing per product exactly the requested total and keeping all
quantities nonnegative. -/
theorem deductLoop_ok :
    ∀ (reqs : List DeductReq) (stock : List StockBatch) (errs : List StockErr),
      ((stock.map (·.id)).Nodup) →
      (∀ b ∈ stock, 0 ≤ b.quantity) →
      (∀ r ∈ reqs, r.productName ≠ "" ∧ 0 < r.qty) →
      (∀ p, reqSum p reqs ≤ totalAvailable p stock) →
      deductLoop reqs stock errs
        = (reqs.foldl (fun s r => deductOne r.productName r.qty s) stock, errs)
    ∧ (∀ p, totalAvailable p
          (reqs.foldl (fun s r => deductOne r.productName r.qty s) stock)
        = totalAvailable p stock - reqSum p reqs)
    ∧ (∀ b ∈ reqs.foldl (fun s r => deductOne r.productName r.qty s) stock,
        0 ≤ b.quantity)
  | [], stock, errs, _, hnn, _, _ => ⟨rfl, fun p => by simp [reqSum], hnn⟩
  | r :: rs, stock, errs, hids, hnn, hreq, hsuff => by
    obtain ⟨hname, hqpos⟩ := hreq r (List.mem_cons_self r rs)
    have hrs_pos : ∀ x ∈ rs, 0 < x.qty :=
      fun x hx => (hreq x (List.mem_cons_of_mem r hx)).2
    have hsum_r : reqSum r.productName (r :: rs)
        = r.qty + reqSum r.productName rs := by
      rw [reqSum_cons]
      simp
    have hsuff_r : r.qty ≤ totalAvailable r.productName stock := by
      have h := hsuff r.productName
      rw [hsum_r] at h
      have h0 : 0 ≤ reqSum r.productName rs := reqSum_nonneg hrs_pos
      linarith
    have hloop : deductLoop (r :: rs) stock errs
        = deductLoop rs (deductOne r.productName r.qty stock) errs := by
      show (if r.productName = "" ∨ r.qty ≤ 0 then _ else _) = _
      rw [if_neg (by push_neg; exact ⟨hname, hqpos⟩),
        if_neg (not_lt.mpr hsuff_r)]
    have hids' : ((deductOne r.productName r.qty stock).map (·.id)).Nodup := by
      rw [deductOne_ids]
      exact hids
    have hnn' := deductOne_nonneg r.productName r.qty stock hnn
    have htot_r : totalAvailable r.productName (deductOne r.productName r.qty stock)
        = totalAvailable r.productName stock - r.qty :=
      deductOne_total r.productName r.qty stock hids hnn hqpos hsuff_r
    have hsuff' : ∀ p, reqSum p rs
        ≤ totalAvailable p (deductOne r.productName r.qty stock) := by
      intro p
      by_cases hp : r.productName = p
      · subst hp
        rw [htot_r]
        have h := hsuff r.productName
        rw [hsum_r] at h
        linarith
      · rw [deductOne_total_other r.productName p (fun hv => hp hv.symm) _ _ hids]
        have heq : reqSum p (r :: rs) = reqSum p rs := by
          rw [reqSum_cons]
          simp [show (r.productName == p) = false by simpa using hp]
        have h := hsuff p
        rw [heq] at h
        exact h
    obtain ⟨ih1, ih2, ih3⟩ := deductLoop_ok rs (deductOne r.productName r.qty stock)
      errs hids' hnn' (fun x hx => hreq x (List.mem_cons_of_mem r hx)) hsuff'
    refine ⟨by rw [hloop, ih1]; rfl, ?_, ?_⟩
    · intro p
      show totalAvailable p
        (rs.foldl (fun s r => deductOne r.productName r.qty s)
          (deductOne r.productName r.qty stock)) = _
      rw [ih2 p]
      by_cases hp : r.productName = p
      · subst hp
        rw [htot_r, hsum_r]
        ring
      · rw [deductOne_total_other r.productName p (fun hv => hp hv.symm) _ _ hids,
          reqSum_cons]
        simp [show (r.productName == p) = false by simpa using hp]
    · exact ih3

/-- C6: when every requested product's requested total is covered by its
available total (each request with a product name and a positive quantity),
the call succeeds and equals the per-request FIFO deductions applied in order;
each product's total drops by exactly the requested total, no batch goes below
zero — and on the spec's example (B1 = 5 oldest, B2 = 5, deduct 7) batch B1 is
emptied and B2 is left with 3. -/
theorem C6_fifo_deduction (db : DB) (reqs : List DeductReq)
    (hne : reqs ≠ [])
    (hids : (db.stock.map (·.id)).Nodup)
    (hnn : ∀ b ∈ db.stock, 0 ≤ b.quantity)
    (hreq : ∀ r ∈ reqs, r.productName ≠ "" ∧ 0 < r.qty)
    (hsuff : ∀ r ∈ reqs,
      reqSum r.productName reqs ≤ totalAvailable r.productName db.stock) :
    deduct_stock_api reqs db
      = ({ db with
            stock := reqs.foldl (fun s r => deductOne r.productName r.qty s) db.stock },
         .deducted)
  ∧ (∀ p, totalAvailable p
        (reqs.foldl (fun s r => deductOne r.productName r.qty s) db.stock)
      = totalAvailable p db.stock - reqSum p reqs)
  ∧ (∀ b ∈ reqs.foldl (fun s r => deductOne r.productName r.qty s) db.stock,
      0 ≤ b.quantity)
  ∧ deduct_stock_api [⟨"P", 7⟩] dbTwoBatches
      = ({ dbTwoBatches with
            stock := [⟨1, "P", "B1", "2024-01-01", 0⟩, ⟨2, "P", "B2", "2024-01-02", 3⟩] },
         .deducted) := by
  have hsuff' : ∀ p, reqSum p reqs ≤ totalAvailable p db.stock := by
    intro p
    by_cases hp : ∃ r ∈ reqs, r.productName = p
    · obtain ⟨r, hr, hrp⟩ := hp
      have h := hsuff r hr
      rw [hrp] at h
      exact h
    · push_neg at hp
      have h0 : reqSum p reqs = 0 := by
        unfold reqSum
        rw [List.filter_eq_nil_iff.mpr (fun r hr => by simp [hp r hr])]
        rfl
      rw [h0]
      exact totalAvailable_nonneg hnn
  obtain ⟨h1, h2, h3⟩ := deductLoop_ok reqs db.stock [] hids hnn hreq hsuff'
  refine ⟨?_, h2, h3, ?_⟩
  · unfold deduct_stock_api
    rw [if_neg hne]
    simp [h1]
  · norm_num +decide [deduct_stock_api, dbTwoBatches, deductLoop, totalAvailable,
      deductOne, fifoBatches, sortBy, insertLe, batchKeyLe, strLt, clLt,
      deductAmounts, applyStockUpdates]

theorem C6_witness :
    (([⟨"P", (7 : ℚ)⟩] : List DeductReq) ≠ []
      ∧ (dbTwoBatches.stock.map (·.id)).Nodup
      ∧ (∀ b ∈ dbTwoBatches.stock, 0 ≤ b.quantity)
      ∧ (∀ r ∈ ([⟨"P", (7 : ℚ)⟩] : List DeductReq),
          reqSum r.productName [⟨"P", (7 : ℚ)⟩]
            ≤ totalAvailable r.productName dbTwoBatches.stock))
  ∧ deduct_stock_api [⟨"P", 7⟩] dbTwoBatches
      = ({ dbTwoBatches with
            stock := ([⟨"P", (7 : ℚ)⟩] : List DeductReq).foldl
              (fun s r => deductOne r.productName r.qty s) dbTwoBatches.stock },
         .deducted) := by
  have hnn : ∀ b ∈ dbTwoBatches.stock, 0 ≤ b.quantity := by
    intro b hb
    rcases (by simpa [dbTwoBatches] using hb : _ ∨ _) with h | h <;>
      · rw [h]
        norm_num
  have hreq : ∀ r ∈ ([⟨"P", (7 : ℚ)⟩] : List DeductReq),
      r.productName ≠ "" ∧ 0 < r.qty := by
    intro r hr
    rw [List.mem_singleton] at hr
    rw [hr]
    exact ⟨by simp, by norm_num⟩
  have hsuff : ∀ r ∈ ([⟨"P", (7 : ℚ)⟩] : List DeductReq),
      reqSum r.productName [⟨"P", (7 : ℚ)⟩]
        ≤ totalAvailable r.productName dbTwoBatches.stock := by
    intro r hr
    rw [List.mem_singleton] at hr
    rw [hr]
    norm_num [reqSum, totalAvailable, dbTwoBatches]
  exact ⟨⟨by simp, by decide, hnn, hsuff⟩,
    (C6_fifo_deduction dbTwoBatches [⟨"P", 7⟩] (by simp) (by decide) hnn hreq hsuff).1⟩

/-! ## C7: insufficient stock aborts the whole call -/

theorem deductLoop_errs_extend :
    ∀ (reqs : List DeductReq) (stock : List StockBatch) (errs : List StockErr),
      ∃ rest, (deductLoop reqs stock errs).2 = errs ++ rest
  | [], _, errs => ⟨[], by simp [deductLoop]⟩
  | r :: rs, stock, errs => by
    by_cases h1 : r.productName = "" ∨ r.qty ≤ 0
    · rw [show deductLoop (r :: rs) stock errs = deductLoop rs stock errs from by
        show (if r.productName = "" ∨ r.qty ≤ 0 then _ else _) = _
        rw [if_pos h1]]
      exact deductLoop_errs_extend rs stock errs
    · by_cases h2 : totalAvailable r.productName stock < r.qty
      · rw [show deductLoop (r :: rs) stock errs
            = deductLoop rs stock
                (errs ++ [⟨r.productName, totalAvailable r.productName stock, r.qty⟩])
            from by
          show (if r.productName = "" ∨ r.qty ≤ 0 then _ else _) = _
          rw [if_neg h1, if_pos h2]]
        obtain ⟨rest, hrest⟩ := deductLoop_errs_extend rs stock
          (errs ++ [⟨r.productName, totalAvailable r.productName stock, r.qty⟩])
        exact ⟨[⟨r.productName, totalAvailable r.productName stock, r.qty⟩] ++ rest,
          by rw [hrest, List.append_assoc]⟩
      · rw [show deductLoop (r :: rs) stock errs
            = deductLoop rs (deductOne r.productName r.qty stock) errs from by
          show (if r.productName = "" ∨ r.qty ≤ 0 then _ else _) = _
          rw [if_neg h1, if_neg h2]]
        exact deductLoop_errs_extend rs _ errs

/-- A request whose product cannot cover its quantity always lands in the
collected failure messages, with the availability observed when it was
processed — never more than the availability at the start of the call. -/
theorem deductLoop_insufficient :
    ∀ (reqs : List DeductReq) (stock : List StockBatch) (errs : List StockErr)
      (r : DeductReq), r ∈ reqs →
      ((stock.map (·.id)).Nodup) → (∀ b ∈ stock, 0 ≤ b.quantity) →
      r.productName ≠ "" → totalAvailable r.productName stock < r.qty →
      ∃ a, 0 ≤ a ∧ a ≤ totalAvailable r.productName stock
        ∧ (⟨r.productName, a, r.qty⟩ : StockErr) ∈ (deductLoop reqs stock errs).2
  | [], _, _, r, hr, _, _, _, _ => absurd hr (List.not_mem_nil r)
  | r₀ :: rs, stock, errs, r, hr, hids, hnn, hname, hins => by
    rcases List.mem_cons.mp hr with rfl | hrs
    · have hq : 0 < r.qty := lt_of_le_of_lt (totalAvailable_nonneg hnn) hins
      have hloop : deductLoop (r :: rs) stock errs
          = deductLoop rs stock
              (errs ++ [⟨r.productName, totalAvailable r.productName stock, r.qty⟩]) := by
        show (if r.productName = "" ∨ r.qty ≤ 0 then _ else _) = _
        rw [if_neg (by push_neg; exact ⟨hname, hq⟩), if_pos hins]
      obtain ⟨rest, hrest⟩ := deductLoop_errs_extend rs stock
        (errs ++ [⟨r.productName, totalAvailable r.productName stock, r.qty⟩])
      refine ⟨totalAvailable r.productName stock, totalAvailable_nonneg hnn,
        le_refl _, ?_⟩
      rw [hloop, hrest]
      simp
    · by_cases h1 : r₀.productName = "" ∨ r₀.qty ≤ 0
      · rw [show deductLoop (r₀ :: rs) stock errs = deductLoop rs stock errs from by
          show (if r₀.productName = "" ∨ r₀.qty ≤ 0 then _ else _) = _
          rw [if_pos h1]]
        exact deductLoop_insufficient rs stock errs r hrs hids hnn hname hins
      · by_cases h2 : totalAvailable r₀.productName stock < r₀.qty
        · rw [show deductLoop (r₀ :: rs) stock errs
              = deductLoop rs stock
                  (errs ++ [⟨r₀.productName, totalAvailable r₀.productName stock, r₀.qty⟩])
              from by
            show (if r₀.productName = "" ∨ r₀.qty ≤ 0 then _ else _) = _
            rw [if_neg h1, if_pos h2]]
          exact deductLoop_insufficient rs stock _ r hrs hids hnn hname hins
        · rw [show deductLoop (r₀ :: rs) stock errs
              = deductLoop rs (deductOne r₀.productName r₀.qty stock) errs from by
            show (if r₀.productName = "" ∨ r₀.qty ≤ 0 then _ else _) = _
            rw [if_neg h1, if_neg h2]]
          have hids' : ((deductOne r₀.productName r₀.qty stock).map (·.id)).Nodup := by
            rw [deductOne_ids]
            exact hids
          have hnn' := deductOne_nonneg r₀.productName r₀.qty stock hnn
          have hle : totalAvailable r.productName (deductOne r₀.productName r₀.qty stock)
              ≤ totalAvailable r.productName stock :=
            deductOne_le r.productName r₀.productName r₀.qty stock hids
          obtain ⟨a, ha0, hale, hmem⟩ := deductLoop_insufficient rs _ errs r hrs
            hids' hnn' hname (lt_of_le_of_lt hle hins)
          exact ⟨a, ha0, le_trans hale hle, hmem⟩

/-- C7: if any valid request's quantity exceeds its product's total available
quantity at the start of the call, the whole call fails: the returned store is
exactly the input store (every batch of every product unchanged), and the
collected failure messages name that product together with the availability
observed for it (bounded by the start-of-call availability) and the required
quantity. -/
theorem C7_insufficient_stock_aborts (db : DB) (reqs : List DeductReq)
    (r : DeductReq) (hne : reqs ≠ [])
    (hids : (db.stock.map (·.id)).Nodup)
    (hnn : ∀ b ∈ db.stock, 0 ≤ b.quantity)
    (hr : r ∈ reqs) (hname : r.productName ≠ "")
    (hins : totalAvailable r.productName db.stock < r.qty) :
    ∃ errs, deduct_stock_api reqs db = (db, .insufficient errs)
      ∧ ∃ a, 0 ≤ a ∧ a ≤ totalAvailable r.productName db.stock
          ∧ (⟨r.productName, a, r.qty⟩ : StockErr) ∈ errs := by
  obtain ⟨a, ha0, hale, hmem⟩ :=
    deductLoop_insufficient reqs db.stock [] r hr hids hnn hname hins
  have hne2 : (deductLoop reqs db.stock []).2 ≠ [] := List.ne_nil_of_mem hmem
  refine ⟨(deductLoop reqs db.stock []).2, ?_, a, ha0, hale, hmem⟩
  unfold deduct_stock_api
  rw [if_neg hne]
  simp [hne2]

theorem C7_witness :
    (([⟨"P", (12 : ℚ)⟩] : List DeductReq) ≠ []
      ∧ (dbTwoBatches.stock.map (·.id)).Nodup
      ∧ (∀ b ∈ dbTwoBatches.stock, 0 ≤ b.quantity)
      ∧ (⟨"P", (12 : ℚ)⟩ : DeductReq) ∈ ([⟨"P", (12 : ℚ)⟩] : List DeductReq)
      ∧ totalAvailable "P" dbTwoBatches.stock < 12)
  ∧ ∃ errs, deduct_stock_api [⟨"P", 12⟩] dbTwoBatches = (dbTwoBatches, .insufficient errs)
      ∧ ∃ a, 0 ≤ a ∧ a ≤ totalAvailable "P" dbTwoBatches.stock
          ∧ (⟨"P", a, 12⟩ : StockErr) ∈ errs := by
  have hnn : ∀ b ∈ dbTwoBatches.stock, 0 ≤ b.quantity := by
    intro b hb
    rcases (by simpa [dbTwoBatches] using hb : _ ∨ _) with h | h <;>
      · rw [h]
        norm_num
  have hins : totalAvailable "P" dbTwoBatches.stock < 12 := by
    norm_num [totalAvailable, dbTwoBatches]
  exact ⟨⟨by simp, by decide, hnn, List.mem_singleton_self _, hins⟩,
    C7_insufficient_stock_aborts dbTwoBatches [⟨"P", 12⟩] ⟨"P", 12⟩ (by simp)
      (by decide) hnn (List.mem_singleton_self _) (by simp) hins⟩

end Nutrion
